import Mathlib

/-!
# Verification of the Clove agent-kernel core

A shallow embedding in Lean 4 of the parts of the Clove repository that the
verified properties talk about, together with proofs settling those
properties.  Each definition mirrors one C++ function of the repository
(file and line references are given in the doc comments); machine integers
are modelled as `Nat`/`Int`, `std::optional` as `Option`, hash maps as
association lists (their iteration order is unspecified in the source, so
no property below depends on it), `double` as `ℚ` (exact arithmetic;
divergences are noted where they matter), and the steady clock as an
explicit integer time parameter threaded through the operations.

Components embedded here:
 * the state store (`src/kernel/state_store.cpp`),
 * the restart supervisor (`src/runtime/agent/manager.cpp`),
 * the virtual filesystem (`src/kernel/virtual_fs.cpp`),
 * the world engine (`src/worlds/world_engine.cpp`),
 * the event bus and the SYS_EMIT handler (`src/kernel/event_bus.cpp`,
   `src/kernel/syscalls/events.cpp`).

Fields that no verified property observes (metrics counters, spdlog calls,
the network mock and the chaos engine inside a world, timestamps that are
serialized but dropped on restore) are omitted; each omission is noted at
the definition it concerns.
-/

namespace Clove

/-! ## Association lists

`std::unordered_map` / `std::map` are modelled as association lists with
the usual first-match lookup.  `std::unordered_map::operator[] =` is
`assocPut` (replace the existing binding or append a fresh one);
`erase` is `assocErase` (drop the first binding for the key).
-/

/-- First-match lookup, the model of `map.find(k)`. -/
def assocFind {α β : Type} [DecidableEq α] (l : List (α × β)) (k : α) : Option β :=
  match l.find? (fun p => p.1 = k) with
  | some p => some p.2
  | none => none

/-- Replace the binding for `k` or append it: the model of `map[k] = v`. -/
def assocPut {α β : Type} [DecidableEq α] (l : List (α × β)) (k : α) (v : β) :
    List (α × β) :=
  match l with
  | [] => [(k, v)]
  | p :: rest => if p.1 = k then (k, v) :: rest else p :: assocPut rest k v

/-- Drop the first binding for `k`: the model of `map.erase(k)`. -/
def assocErase {α β : Type} [DecidableEq α] (l : List (α × β)) (k : α) :
    List (α × β) :=
  match l with
  | [] => []
  | p :: rest => if p.1 = k then rest else p :: assocErase rest k

@[simp] theorem assocFind_nil {α β : Type} [DecidableEq α] (k : α) :
    assocFind ([] : List (α × β)) k = none := rfl

@[simp] theorem assocFind_cons {α β : Type} [DecidableEq α]
    (p : α × β) (l : List (α × β)) (k : α) :
    assocFind (p :: l) k = if p.1 = k then some p.2 else assocFind l k := by
  by_cases h : p.1 = k <;> simp [assocFind, List.find?, h]

theorem assocFind_put_self {α β : Type} [DecidableEq α]
    (l : List (α × β)) (k : α) (v : β) :
    assocFind (assocPut l k v) k = some v := by
  induction l with
  | nil => simp [assocPut]
  | cons p rest ih =>
      by_cases h : p.1 = k
      · simp [assocPut, h]
      · simp [assocPut, h, ih]

theorem assocFind_put_other {α β : Type} [DecidableEq α]
    (l : List (α × β)) (k k' : α) (v : β) (h : k ≠ k') :
    assocFind (assocPut l k v) k' = assocFind l k' := by
  induction l with
  | nil => simp [assocPut, h]
  | cons p rest ih =>
      by_cases hp : p.1 = k
      · subst hp; simp [assocPut, h]
      · simp [assocPut, hp, ih]

/-! ## JSON values

`nlohmann::json` is modelled as a first-order tree.  Objects are
association lists of string keys (the source's objects are key-sorted
maps; nothing below depends on key order).  Numbers are `Int` — no
verified property stores fractional numbers.
-/

inductive Json : Type where
  | null : Json
  | bool (b : Bool) : Json
  | num (n : Int) : Json
  | str (s : String) : Json
  | arr (elems : List Json) : Json
  | obj (fields : List (String × Json)) : Json

namespace Json

/-- Model of `j.contains(key) ? j[key] : none` on an object. -/
def get (j : Json) (key : String) : Option Json :=
  match j with
  | obj fields => assocFind fields key
  | _ => none

/-- Model of `j.value(key, default)` for string-valued fields.  The
source's `value` throws when the field is present with a non-string
type; that path is `none` here. -/
def valueStr (j : Json) (key : String) (dflt : String) : Option String :=
  match j.get key with
  | some (str s) => some s
  | some _ => none
  | none => some dflt

/-- Model of `j[key] = v` on an object; `operator[]` turns `null` into an
object, and throws (here `none`) when `j` is any other non-object. -/
def setField (j : Json) (key : String) (v : Json) : Option Json :=
  match j with
  | obj fields => some (obj (assocPut fields key v))
  | null => some (obj [(key, v)])
  | _ => none

/-- String elements of an array; non-string elements are skipped (the
source's `get<std::string>` throws on them; no verified property hits
that path). -/
def strElems (j : Json) : List String :=
  match j with
  | arr elems => elems.filterMap (fun e => match e with | str s => some s | _ => none)
  | _ => []

end Json

/-! ## Decimal representation of naturals

`std::to_string` on an unsigned integer and `operator<<` on a
`std::stringstream` both produce the decimal digit string; both are
modelled by `natChars`.
-/

/-- Decimal digits with a structural fuel argument (any fuel above the
digit count gives the digits; the `0` arm is unreachable from
`natChars`). -/
def natCharsAux : Nat → Nat → List Char
  | 0, _ => []
  | fuel + 1, n =>
      if n < 10 then [Nat.digitChar n]
      else natCharsAux fuel (n / 10) ++ [Nat.digitChar (n % 10)]

/-- Decimal digits of `n`, most significant first. -/
def natChars (n : Nat) : List Char := natCharsAux (n + 1) n

theorem natCharsAux_fuel :
    ∀ (f₁ f₂ n : Nat), n < f₁ → n < f₂ → natCharsAux f₁ n = natCharsAux f₂ n := by
  intro f₁
  induction f₁ with
  | zero => intro f₂ n h; omega
  | succ f₁ ih =>
      intro f₂ n h1 h2
      cases f₂ with
      | zero => omega
      | succ f₂ =>
          simp only [natCharsAux]
          by_cases hn : n < 10
          · simp [hn]
          · have hd : n / 10 < n := Nat.div_lt_self (by omega) (by omega)
            rw [if_neg hn, if_neg hn, ih f₂ (n / 10) (by omega) (by omega)]

theorem natChars_eq (n : Nat) :
    natChars n = if n < 10 then [Nat.digitChar n]
      else natChars (n / 10) ++ [Nat.digitChar (n % 10)] := by
  show natCharsAux (n + 1) n = _
  rw [natCharsAux]
  by_cases hn : n < 10
  · simp [hn]
  · have hd : n / 10 < n := Nat.div_lt_self (by omega) (by omega)
    rw [if_neg hn, if_neg hn]
    unfold natChars
    rw [natCharsAux_fuel n (n / 10 + 1) (n / 10) (by omega) (by omega)]

theorem natChars_ne_nil (n : Nat) : natChars n ≠ [] := by
  rw [natChars_eq]
  split <;> simp

theorem digitChar_inj {a b : Nat} (ha : a < 10) (hb : b < 10)
    (h : Nat.digitChar a = Nat.digitChar b) : a = b := by
  interval_cases a <;> interval_cases b <;> simp_all [Nat.digitChar]

theorem natChars_inj : ∀ m n : Nat, natChars m = natChars n → m = n := by
  intro m
  induction m using Nat.strong_induction_on with
  | _ m ih =>
    intro n h
    rw [natChars_eq m, natChars_eq n] at h
    by_cases hm : m < 10 <;> by_cases hn : n < 10
    · rw [if_pos hm, if_pos hn] at h
      exact digitChar_inj hm hn (by simpa using h)
    · rw [if_pos hm, if_neg hn] at h
      exfalso
      have hlen := congrArg List.length h
      simp only [List.length_append, List.length_cons, List.length_nil] at hlen
      have hz : (natChars (n / 10)).length = 0 := by omega
      exact natChars_ne_nil (n / 10) (List.length_eq_zero.mp hz)
    · rw [if_neg hm, if_pos hn] at h
      exfalso
      have hlen := congrArg List.length h
      simp only [List.length_append, List.length_cons, List.length_nil] at hlen
      have hz : (natChars (m / 10)).length = 0 := by omega
      exact natChars_ne_nil (m / 10) (List.length_eq_zero.mp hz)
    · rw [if_neg hm, if_neg hn] at h
      have hlen : (natChars (m / 10)).length = (natChars (n / 10)).length := by
        have := congrArg List.length h
        simp only [List.length_append, List.length_cons, List.length_nil] at this
        omega
      obtain ⟨h1, h2⟩ := List.append_inj h hlen
      have hdiv := ih (m / 10) (Nat.div_lt_self (by omega) (by omega)) (n / 10) h1
      have hmod : Nat.digitChar (m % 10) = Nat.digitChar (n % 10) := by simpa using h2
      have := digitChar_inj (Nat.mod_lt m (by omega)) (Nat.mod_lt n (by omega)) hmod
      omega

theorem mem_natChars_isDigit {n : Nat} {c : Char} (h : c ∈ natChars n) :
    ∃ d, d < 10 ∧ c = Nat.digitChar d := by
  induction n using Nat.strong_induction_on with
  | _ n ih =>
    rw [natChars_eq] at h
    split at h
    · next hn => simp at h; exact ⟨n, hn, h⟩
    · next hn =>
        rcases List.mem_append.mp h with h1 | h1
        · exact ih (n / 10) (Nat.div_lt_self (by omega) (by omega)) h1
        · simp at h1
          exact ⟨n % 10, Nat.mod_lt n (by omega), h1⟩

theorem natChars_no_dash {n : Nat} : '-' ∉ natChars n := by
  intro h
  obtain ⟨d, hd, hc⟩ := mem_natChars_isDigit h
  interval_cases d <;> simp_all [Nat.digitChar]

theorem natChars_no_colon {n : Nat} : ':' ∉ natChars n := by
  intro h
  obtain ⟨d, hd, hc⟩ := mem_natChars_isDigit h
  interval_cases d <;> simp_all [Nat.digitChar]

theorem natChars_head_ne_zero {n : Nat} (hn : 1 ≤ n) :
    ∃ c t, natChars n = c :: t ∧ c ≠ '0' := by
  induction n using Nat.strong_induction_on with
  | _ n ih =>
    rw [natChars_eq]
    split
    · next h =>
        refine ⟨Nat.digitChar n, [], rfl, ?_⟩
        interval_cases n <;> simp [Nat.digitChar]
    · next h =>
        obtain ⟨c, t, hct, hc⟩ := ih (n / 10) (Nat.div_lt_self (by omega) (by omega))
          (by omega)
        exact ⟨c, t ++ [Nat.digitChar (n % 10)], by rw [hct]; rfl, hc⟩

/-! ## Separator splitting

Generic lemma used both for the world-id suffix (last `'-'`) and the
agent-key prefix (first `':'`). -/

theorem append_sep_inj {c : Char} :
    ∀ (xs ys t₁ t₂ : List Char), c ∉ xs → c ∉ ys →
      xs ++ c :: t₁ = ys ++ c :: t₂ → xs = ys ∧ t₁ = t₂ := by
  intro xs
  induction xs with
  | nil =>
      intro ys t₁ t₂ _ hys h
      cases ys with
      | nil => simpa using h
      | cons y ys' =>
          exfalso
          simp at h
          exact hys (by simp [h.1])
  | cons x xs' ih =>
      intro ys t₁ t₂ hxs hys h
      cases ys with
      | nil =>
          exfalso
          simp at h
          exact hxs (by simp [h.1])
      | cons y ys' =>
          simp at h
          obtain ⟨hxy, hrest⟩ := h
          have := ih ys' t₁ t₂ (by intro hm; exact hxs (by simp [hm]))
            (by intro hm; exact hys (by simp [hm])) hrest
          exact ⟨by simp [hxy, this.1], this.2⟩

theorem append_sep_inj_last {c : Char}
    (xs ys t₁ t₂ : List Char) (h1 : c ∉ t₁) (h2 : c ∉ t₂)
    (h : xs ++ c :: t₁ = ys ++ c :: t₂) : t₁ = t₂ := by
  have hrev : t₁.reverse ++ c :: xs.reverse = t₂.reverse ++ c :: ys.reverse := by
    have := congrArg List.reverse h
    simpa [List.reverse_append] using this
  have := append_sep_inj t₁.reverse t₂.reverse xs.reverse ys.reverse
    (by simpa using h1) (by simpa using h2) hrev
  have := this.1
  simpa using congrArg List.reverse this

/-- `s.find(p) == 0`, i.e. `s` starts with `p` (structural, on the
character lists). -/
def strStartsWith (s p : String) : Bool :=
  p.data.isPrefixOf s.data

/-- Split a character list on a delimiter (`String.splitOn` semantics:
one segment per delimiter plus one, so `[[]]` for the empty input). -/
def splitOnChar (l : List Char) (delim : Char) : List (List Char) :=
  match l with
  | [] => [[]]
  | c :: rest =>
      let r := splitOnChar rest delim
      if c = delim then [] :: r
      else match r with
        | [] => [[c]]
        | h :: t => (c :: h) :: t

/-! ## State store (`src/src/kernel/state_store.cpp`)

The store is guarded by a single mutex in the source; each operation is
modelled as a pure function from store (plus the current steady-clock
time) to result and new store.
-/

/-- `StoredValue` (state_store.hpp lines 13-23).  `expires_at` keeps the
source representation: a `steady_clock::time_point` count, with `0` for
the default-constructed epoch value, which `is_expired` treats as
"never expires". -/
structure StoredValue where
  value : Json
  expires_at : Int := 0
  owner_agent_id : Nat
  scope : String

/-- `StoredValue::is_expired` (state_store.hpp lines 19-22), with the
clock passed explicitly. -/
def StoredValue.is_expired (v : StoredValue) (now : Int) : Bool :=
  if v.expires_at = 0 then false else now > v.expires_at

/-- `StoreResult` (state_store.hpp lines 25-29). -/
structure StoreResult where
  success : Bool := false
  key : String := ""
  scope : String := ""

/-- `FetchResult` (state_store.hpp lines 31-36); the `exists` member is
spelled `exists_` because `exists` is a Lean keyword. -/
structure FetchResult where
  success : Bool := false
  exists_ : Bool := false
  value : Json := Json.null
  scope : String := ""

/-- The `StateStore`'s map `store_` (state_store.hpp line 54). -/
structure StateStore where
  entries : List (String × StoredValue)

/-- Model of `std::to_string` on a `uint32_t`. -/
def natToString (n : Nat) : String := ⟨natChars n⟩

/-- `StateStore::make_agent_key` (state_store.cpp lines 158-160). -/
def make_agent_key (agent_id : Nat) (key : String) : String :=
  "agent:" ++ natToString agent_id ++ ":" ++ key

/-- The scope normalization of `StateStore::store`
(state_store.cpp lines 16 and 22-24): an empty scope becomes `global`,
and so does anything other than `global`, `agent` and `session`. -/
def normalizeScope (scope : String) : String :=
  let scope1 := if scope = "" then "global" else scope
  if scope1 ≠ "global" ∧ scope1 ≠ "agent" ∧ scope1 ≠ "session"
  then "global" else scope1

/-- `StateStore::store` (state_store.cpp lines 5-41). -/
def StateStore.store (st : StateStore) (now : Int) (agent_id : Nat) (key : String)
    (value : Json) (scope : String) (ttl_secs : Option Int) :
    StoreResult × StateStore :=
  if key = "" then ({}, st)
  else
    let expires : Int := match ttl_secs with
      | some ttl => now + ttl
      | none => 0
    let scope2 := normalizeScope scope
    let store_key := if scope2 = "agent" then make_agent_key agent_id key else key
    let entry : StoredValue :=
      { value := value, expires_at := expires, owner_agent_id := agent_id, scope := scope2 }
    ({ success := true, key := key, scope := scope2 },
     { entries := assocPut st.entries store_key entry })

/-- `StateStore::can_access_key` (state_store.cpp lines 151-156). -/
def StateStore.can_access_key (agent_id : Nat) (v : StoredValue) : Bool :=
  if v.scope = "global" then true
  else if v.scope = "agent" ∧ v.owner_agent_id = agent_id then true
  else if v.scope = "session" then true
  else false

/-- One iteration of the `fetch` loop body (state_store.cpp lines 56-76)
for a single candidate key: `none` means the loop `continue`s; the
returned store reflects the lazy erase of an expired entry. -/
def fetchTry (st : StateStore) (now : Int) (agent_id : Nat) (try_key : String) :
    Option FetchResult × StateStore :=
  match assocFind st.entries try_key with
  | none => (none, st)
  | some v =>
      if v.is_expired now then (none, { entries := assocErase st.entries try_key })
      else if StateStore.can_access_key agent_id v then
        (some { success := true, exists_ := true, value := v.value, scope := v.scope }, st)
      else (none, st)

/-- `StateStore::fetch` (state_store.cpp lines 43-82): try the bare key,
then the agent-scoped key. -/
def StateStore.fetch (st : StateStore) (now : Int) (agent_id : Nat) (key : String) :
    FetchResult × StateStore :=
  if key = "" then ({}, st)
  else
    match fetchTry st now agent_id key with
    | (some r, st') => (r, st')
    | (none, st') =>
        match fetchTry st' now agent_id (make_agent_key agent_id key) with
        | (some r, st'') => (r, st'')
        | (none, st'') =>
            ({ success := true, exists_ := false, value := Json.null }, st'')

/-- The key-stripping step of `StateStore::keys`
(state_store.cpp lines 133-139): keys beginning with `agent:` are
returned with everything up to the second colon removed. -/
def stripAgentKey (key : String) : String :=
  if strStartsWith key "agent:" then
    let rest := key.data.drop 6
    if ':' ∈ rest then ⟨(rest.dropWhile (fun c => c ≠ ':')).drop 1⟩
    else key
  else key

/-- `StateStore::keys` (state_store.cpp lines 116-149).  The source
erases expired entries while iterating and collects the surviving keys
that pass access control and the prefix test (applied to the physical
key) in map-iteration order; the model iterates in list order. -/
def StateStore.keys (st : StateStore) (now : Int) (agent_id : Nat) (pre : String) :
    List String × StateStore :=
  let live := st.entries.filter (fun kv => !(kv.2.is_expired now))
  let ks := live.filterMap (fun kv =>
    if ¬ StateStore.can_access_key agent_id kv.2 then none
    else if pre = "" ∨ strStartsWith kv.1 pre then some (stripAgentKey kv.1)
    else none)
  (ks, { entries := live })

/-! ## Restart supervisor (`src/src/runtime/agent/manager.cpp`)

Times are modelled in the unit the source compares them in: the restart
window check uses whole seconds, so failure instants and `window_start`
are second counts (`Nat`); backoff delays are milliseconds.  The
`double` backoff accumulator is modelled as `ℚ` (exact; `double`
rounding can differ for products that need more than 53 bits of
mantissa, which no property below exercises).
-/

/-- `RestartPolicy` (runtime/agent/types.hpp lines 11-15). -/
inductive RestartPolicy : Type where
  | NEVER
  | ALWAYS
  | ON_FAILURE
  deriving DecidableEq, Repr

/-- `RestartConfig` (runtime/agent/types.hpp lines 32-39). -/
structure RestartConfig where
  policy : RestartPolicy := .NEVER
  max_restarts : Nat := 5
  restart_window_sec : Nat := 300
  backoff_initial_ms : Nat := 1000
  backoff_max_ms : Nat := 60000
  backoff_multiplier : ℚ := 2

/-- `AgentManager::RestartState` (runtime/agent/manager.hpp lines 64-69). -/
structure RestartState where
  restart_count : Nat := 0
  window_start : Nat
  consecutive_failures : Nat := 0
  escalated : Bool := false

/-- The loop of `AgentManager::calculate_backoff_delay`
(manager.cpp lines 156-164): multiply `consecutive_failures` times,
returning `backoff_max_ms` as soon as the accumulator reaches it; the
final `static_cast<uint32_t>` truncates toward zero. -/
def backoffLoop (config : RestartConfig) : ℚ → Nat → Nat
  | delay, 0 => ⌊delay⌋.toNat
  | delay, n + 1 =>
      let d := delay * config.backoff_multiplier
      if (config.backoff_max_ms : ℚ) ≤ d then config.backoff_max_ms
      else backoffLoop config d n

/-- `AgentManager::calculate_backoff_delay` (manager.cpp lines 150-165). -/
def calculate_backoff_delay (config : RestartConfig) (consecutive_failures : Nat) : Nat :=
  if consecutive_failures = 0 then config.backoff_initial_ms
  else backoffLoop config (config.backoff_initial_ms : ℚ) consecutive_failures

/-- The two restart events the supervisor can emit through
`restart_event_callback_`. -/
inductive RestartEvent : Type where
  | restarting
  | escalated
  deriving DecidableEq, Repr

/-- The per-dead-agent body of `AgentManager::reap_and_restart_agents`
(manager.cpp lines 178-270), for an agent with a saved config: decide by
policy, reset the window if elapsed, escalate at the cap, otherwise
schedule a backoff delay.  Returns the surviving restart state (`none`
when the policy says no restart and the saved config and state are
erased), the emitted events, and the scheduled pending-restart delay in
milliseconds, if any. -/
def handleFailure (config : RestartConfig) (exit_code : Int) (now : Nat)
    (st : RestartState) : Option RestartState × List RestartEvent × Option Nat :=
  let should_restart :=
    match config.policy with
    | .ALWAYS => true
    | .ON_FAILURE => exit_code ≠ 0
    | .NEVER => false
  if should_restart = false then (none, [], none)
  else
    let st1 := if now - st.window_start ≥ config.restart_window_sec
      then { st with window_start := now, restart_count := 0, consecutive_failures := 0 }
      else st
    if st1.restart_count ≥ config.max_restarts then
      if ¬ st1.escalated then
        (some { st1 with escalated := true }, [RestartEvent.escalated], none)
      else (some st1, [], none)
    else
      let backoff_ms := calculate_backoff_delay config st1.consecutive_failures
      (some { st1 with restart_count := st1.restart_count + 1,
                       consecutive_failures := st1.consecutive_failures + 1 },
       [RestartEvent.restarting], some backoff_ms)

/-- A sequence of failures of one supervised agent, each handled by a
supervisor tick at the given instant.  A `none` state means the saved
config was erased (policy said no restart), after which the reap loop
never reaches the restart logic for this agent again. -/
def runFailures (config : RestartConfig) (exit_code : Int) :
    List Nat → Option RestartState → Option RestartState × List RestartEvent × List Nat
  | [], st => (st, [], [])
  | t :: ts, st =>
      match st with
      | none =>
          let (st', evs, delays) := runFailures config exit_code ts none
          (st', evs, delays)
      | some s =>
          let (st1, evs1, d1) := handleFailure config exit_code t s
          let (st', evs, delays) := runFailures config exit_code ts st1
          (st', evs1 ++ evs, d1.toList ++ delays)

/-- The restart state initialized at spawn time
(manager.cpp lines 40-45): zero counters, window starting now. -/
def initialRestartState (t0 : Nat) : RestartState :=
  { window_start := t0 }

/-! ## Virtual filesystem (`src/src/kernel/virtual_fs.cpp`)

`VirtualFile` timestamps and the VFS metrics counters are not observed
by any verified property and are omitted; `read` is modelled as a pure
query (its only mutation is the metrics counters).
-/

/-- ECMAScript line terminators, which `.` (the translation of `**`)
does not match. -/
def isLineTerm (c : Char) : Bool :=
  c = '\n' || c = '\r' || c = ' ' || c = ' '

/-- `VirtualFilesystem::matches_pattern` (virtual_fs.cpp lines 327-376)
as a direct matcher for the regex the source builds: `**` becomes `.*`
(any run of non-line-terminator characters), `*` becomes `[^/]*`, `?`
becomes `[^/]`, and every other pattern character — including the
regex metacharacters the source escapes — matches itself;
`std::regex::icase` makes comparison case-insensitive and `regex_match`
anchors both ends.  First argument is the pattern, second the path. -/
def globMatchAux : Nat → List Char → List Char → Bool
  | 0, _, _ => false
  | fuel + 1, pattern, s =>
      match pattern, s with
      | [], [] => true
      | [], _ :: _ => false
      | '*' :: '*' :: ps, s =>
          globMatchAux fuel ps s ||
            (match s with
             | [] => false
             | c :: s' => !isLineTerm c && globMatchAux fuel ('*' :: '*' :: ps) s')
      | '*' :: ps, s =>
          globMatchAux fuel ps s ||
            (match s with
             | [] => false
             | c :: s' => c != '/' && globMatchAux fuel ('*' :: ps) s')
      | '?' :: ps, s =>
          (match s with
           | [] => false
           | c :: s' => c != '/' && globMatchAux fuel ps s')
      | p :: ps, s =>
          (match s with
           | [] => false
           | c :: s' => p.toLower == c.toLower && globMatchAux fuel ps s')

/-- Entry point: every step consumes a pattern or a path character, so
this fuel makes the `0` arm unreachable. -/
def globMatch (pattern s : List Char) : Bool :=
  globMatchAux (pattern.length + s.length + 1) pattern s

/-- `VirtualFilesystem::matches_pattern` on strings. -/
def matches_pattern (path pattern : String) : Bool :=
  globMatch pattern.data path.data

/-- `VirtualFilesystem::matches_any` (virtual_fs.cpp lines 378-386). -/
def matches_any (path : String) (patterns : List String) : Bool :=
  patterns.any (fun pattern => matches_pattern path pattern)

/-- `VirtualFilesystem::normalize_path` (virtual_fs.cpp lines 388-422):
split on `/`, skip empty and `.` parts, let `..` pop, rebuild with a
leading slash.  (The `getline` loop produces no segment after a
trailing delimiter, unlike `String.splitOn`, but empty segments are
skipped either way.) -/
def normalize_path (path : String) : String :=
  if path = "" then "/"
  else
    let parts := (splitOnChar path.data '/').foldl
      (fun (acc : List (List Char)) part =>
        if part = [] ∨ part = ['.'] then acc
        else if part = ['.', '.'] then acc.dropLast
        else acc ++ [part]) []
    ⟨'/' :: List.intercalate ['/'] parts⟩

/-- `VirtualFile` (virtual_fs.hpp lines 22-38), timestamps omitted. -/
structure VirtualFile where
  content : String
  mode : String := "rw"

/-- `VirtualFilesystem` state (virtual_fs.hpp lines 136-147), metrics
omitted. -/
structure VirtualFilesystem where
  files : List (String × VirtualFile) := []
  readonly_patterns : List String := []
  writable_patterns : List String := []
  intercept_patterns : List String := []

namespace VirtualFilesystem

/-- `VirtualFilesystem::read` (virtual_fs.cpp lines 74-88); the metrics
increments are its only mutation and are omitted. -/
def read (fs : VirtualFilesystem) (path : String) : Option String :=
  match assocFind fs.files (normalize_path path) with
  | some f => some f.content
  | none => none

/-- `VirtualFilesystem::write` (virtual_fs.cpp lines 90-127): refuse on
an existing read-only target; refuse creation when writable patterns
exist and none matches; otherwise create with mode `rw` or update
(replace or append) the existing content. -/
def write (fs : VirtualFilesystem) (path content : String) (append : Bool) :
    Bool × VirtualFilesystem :=
  let normalized := normalize_path path
  match assocFind fs.files normalized with
  | some f =>
      if f.mode = "r" then (false, fs)
      else
        let newContent := if append then f.content ++ content else content
        (true, { fs with
          files := assocPut fs.files normalized { f with content := newContent } })
  | none =>
      if matches_any normalized fs.writable_patterns = false ∧
          fs.writable_patterns ≠ [] then
        (false, fs)
      else
        (true, { fs with
          files := assocPut fs.files normalized { content := content, mode := "rw" } })

/-- `VirtualFilesystem::list` (virtual_fs.cpp lines 148-160): paths of
files matching the pattern (`*` and `/**` short-circuit), sorted. -/
def list (fs : VirtualFilesystem) (pattern : String) : List String :=
  let result := fs.files.filterMap (fun pf =>
    if pattern = "*" ∨ pattern = "/**" ∨ matches_pattern pf.1 pattern = true
    then some pf.1 else none)
  result.mergeSort (fun a b => a ≤ b)

/-- `VirtualFilesystem::is_writable` (virtual_fs.cpp lines 187-203). -/
def is_writable (fs : VirtualFilesystem) (path : String) : Bool :=
  let normalized := normalize_path path
  match assocFind fs.files normalized with
  | some f => f.mode ≠ "r"
  | none =>
      if fs.writable_patterns = [] then true
      else matches_any normalized fs.writable_patterns

/-- `VirtualFilesystem::is_readable` (virtual_fs.cpp lines 205-217). -/
def is_readable (fs : VirtualFilesystem) (path : String) : Bool :=
  let normalized := normalize_path path
  match assocFind fs.files normalized with
  | some _ => true
  | none =>
      matches_any normalized fs.readonly_patterns ||
        matches_any normalized fs.writable_patterns

/-- `VirtualFilesystem::should_intercept` (virtual_fs.cpp lines 219-230). -/
def should_intercept (fs : VirtualFilesystem) (path : String) : Bool :=
  let normalized := normalize_path path
  match assocFind fs.files normalized with
  | some _ => true
  | none => matches_any normalized fs.intercept_patterns

/-- `VirtualFilesystem::to_json` (virtual_fs.cpp lines 232-255).  The
source also serializes the two file timestamps, which `from_json`
ignores; they are omitted here together with the timestamps
themselves. -/
def to_json (fs : VirtualFilesystem) : Json :=
  Json.obj [
    ("files", Json.obj (fs.files.map (fun pf =>
      (pf.1, Json.obj [("content", Json.str pf.2.content),
                       ("mode", Json.str pf.2.mode)])))),
    ("readonly_patterns", Json.arr (fs.readonly_patterns.map Json.str)),
    ("writable_patterns", Json.arr (fs.writable_patterns.map Json.str)),
    ("intercept_patterns", Json.arr (fs.intercept_patterns.map Json.str))]

/-- `j.value(key, dflt)` for the string fields `from_json` reads; the
source throws on a present non-string value, a path no verified
property exercises (round-tripped snapshots only hold strings there). -/
def valueStrD (j : Json) (key dflt : String) : String :=
  match j.get key with
  | some (Json.str s) => s
  | _ => dflt

/-- `VirtualFilesystem::from_json` (virtual_fs.cpp lines 257-294). -/
def from_json (j : Json) : VirtualFilesystem :=
  { files :=
      match j.get "files" with
      | some (Json.obj items) => items.map (fun pf =>
          (pf.1, { content := valueStrD pf.2 "content" "",
                   mode := valueStrD pf.2 "mode" "rw" }))
      | _ => []
    readonly_patterns :=
      match j.get "readonly_patterns" with
      | some a => a.strElems
      | none => []
    writable_patterns :=
      match j.get "writable_patterns" with
      | some a => a.strElems
      | none => []
    intercept_patterns :=
      match j.get "intercept_patterns" with
      | some a => a.strElems
      | none => [] }

end VirtualFilesystem

/-! ## World engine (`src/src/worlds/world_engine.cpp`)

The network mock and the chaos engine inside a world are not observed by
any verified property; their state, configuration and serialization are
omitted.  World metrics are likewise omitted.
-/

/-- `VirtualFilesystem::configure` (virtual_fs.cpp lines 11-60). -/
def VirtualFilesystem.configure (fs : VirtualFilesystem) (config : Json) :
    VirtualFilesystem :=
  let fs1 := match config.get "initial_files" with
    | some (Json.obj items) =>
        { fs with files := (items.foldl
            (fun (acc : List (String × VirtualFile)) (pf : String × Json) =>
            let cm : String × String :=
              (match pf.2 with
               | Json.str s => (s, "rw")
               | Json.obj _ => (VirtualFilesystem.valueStrD pf.2 "content" "",
                                VirtualFilesystem.valueStrD pf.2 "mode" "rw")
               | _ => ("", "rw"))
            assocPut acc (normalize_path pf.1) { content := cm.1, mode := cm.2 })
            fs.files) }
    | _ => fs
  let ro := match config.get "readonly_patterns" with
    | some (Json.arr xs) => (Json.arr xs).strElems
    | _ => []
  let wr := match config.get "writable_patterns" with
    | some (Json.arr xs) => (Json.arr xs).strElems
    | _ => []
  let ic := match config.get "intercept_patterns" with
    | some (Json.arr xs) => some (Json.arr xs).strElems
    | _ => none
  let fs2 := { fs1 with
    readonly_patterns := fs1.readonly_patterns ++ ro,
    writable_patterns := fs1.writable_patterns ++ wr }
  match ic with
  | some ps => { fs2 with intercept_patterns := fs2.intercept_patterns ++ ps }
  | none =>
      if fs2.files.isEmpty && fs2.readonly_patterns.isEmpty &&
          fs2.writable_patterns.isEmpty
      then fs2
      else { fs2 with intercept_patterns := fs2.intercept_patterns ++ ["/**"] }

/-- A `World` (world_engine.hpp lines 259-321); network mock, chaos
engine and metrics omitted.  `agents` models the `std::set<uint32_t>`
member set as a duplicate-free list (iteration order is not observed). -/
structure World where
  id : String
  name : String := ""
  description : String := ""
  config : Json := Json.null
  vfs : VirtualFilesystem := {}
  agents : List Nat := []

namespace World

/-- The `World(id)` constructor (world_engine.cpp lines 589-594). -/
def fresh (id : String) : World :=
  { id := id, name := id }

/-- `World::configure` (world_engine.cpp lines 596-616); the network and
chaos configuration calls are omitted. -/
def configure (w : World) (config : Json) : World :=
  { w with
    config := config,
    name := VirtualFilesystem.valueStrD config "name" w.id,
    description := VirtualFilesystem.valueStrD config "description" "",
    vfs := match config.get "virtual_filesystem" with
      | some v => w.vfs.configure v
      | none => w.vfs }

/-- `World::add_agent` (world_engine.cpp lines 618-624): `set::insert`. -/
def add_agent (w : World) (agent_id : Nat) : World :=
  { w with agents := if agent_id ∈ w.agents then w.agents else w.agents ++ [agent_id] }

/-- `World::remove_agent` (world_engine.cpp lines 626-632): `set::erase`. -/
def remove_agent (w : World) (agent_id : Nat) : World :=
  { w with agents := w.agents.erase agent_id }

/-- `World::to_json` (world_engine.cpp lines 673-687); the `network` and
`chaos` fields are omitted (nothing observed reads them back). -/
def to_json (w : World) : Json :=
  Json.obj [("id", Json.str w.id), ("name", Json.str w.name),
    ("description", Json.str w.description), ("config", w.config),
    ("vfs", w.vfs.to_json),
    ("agents", Json.arr (w.agents.map (fun a => Json.num (Int.ofNat a))))]

/-- `World::from_json` (world_engine.cpp lines 689-720). -/
def from_json (w : World) (j : Json) : World :=
  { w with
    name := VirtualFilesystem.valueStrD j "name" w.id,
    description := VirtualFilesystem.valueStrD j "description" "",
    config := match j.get "config" with | some c => c | none => w.config,
    vfs := match j.get "vfs" with
      | some v => VirtualFilesystem.from_json v
      | none => w.vfs,
    agents := match j.get "agents" with
      | some (Json.arr xs) => xs.filterMap (fun e =>
          match e with | Json.num n => some n.toNat | _ => none)
      | _ => [] }

end World

/-- The name-sanitizing part of `WorldEngine::generate_world_id`
(world_engine.cpp lines 954-974): keep lowercased alphanumerics, `-`
and `_`, turn spaces into `-`, fall back to `world`, truncate to 32. -/
def sanitizeName (name : String) : List Char :=
  let safe := name.data.foldl (fun acc c =>
    if c.isAlphanum ∨ c = '-' ∨ c = '_' then acc ++ [c.toLower]
    else if c = ' ' then acc ++ ['-'] else acc) []
  let safe := if safe = [] then "world".data else safe
  safe.take 32

/-- Four-digit zero-padded decimal: the `setfill('0') << setw(4)` stream
output of world_engine.cpp line 976. -/
def pad4Chars (n : Nat) : List Char :=
  List.replicate (4 - (natChars n).length) '0' ++ natChars n

/-- `WorldEngine::generate_world_id` (world_engine.cpp lines 954-978),
with the post-incremented `next_world_num_` passed explicitly. -/
def generate_world_id (name : String) (num : Nat) : String :=
  ⟨sanitizeName name ++ '-' :: pad4Chars num⟩

/-- `WorldEngine` state (world_engine.hpp lines 402-407). -/
structure WorldEngine where
  worlds : List (String × World) := []
  agent_to_world : List (Nat × String) := []
  next_world_num : Nat := 1

namespace WorldEngine

/-- `WorldEngine::create_world` (world_engine.cpp lines 726-739); the
source's `std::optional` return is always engaged. -/
def create_world (eng : WorldEngine) (name : String) (config : Json) :
    String × WorldEngine :=
  let id := generate_world_id name eng.next_world_num
  let world := (World.fresh id).configure config
  (id, { eng with worlds := assocPut eng.worlds id world,
                  next_world_num := eng.next_world_num + 1 })

/-- `WorldEngine::destroy_world` (world_engine.cpp lines 741-766).  The
source erases each member's `agent_to_world_` entry in a loop, modelled
as one filter. -/
def destroy_world (eng : WorldEngine) (world_id : String) (force : Bool) :
    Bool × WorldEngine :=
  match assocFind eng.worlds world_id with
  | none => (false, eng)
  | some w =>
      if force = false ∧ w.agents.length > 0 then (false, eng)
      else
        (true, { eng with
          worlds := assocErase eng.worlds world_id,
          agent_to_world := eng.agent_to_world.filter
            (fun p => !w.agents.contains p.1) })

/-- `WorldEngine::get_world` (world_engine.cpp lines 791-801). -/
def get_world (eng : WorldEngine) (world_id : String) : Option World :=
  assocFind eng.worlds world_id

/-- `WorldEngine::join_world` (world_engine.cpp lines 803-824). -/
def join_world (eng : WorldEngine) (agent_id : Nat) (world_id : String) :
    Bool × WorldEngine :=
  match assocFind eng.agent_to_world agent_id with
  | some _ => (false, eng)
  | none =>
      match assocFind eng.worlds world_id with
      | none => (false, eng)
      | some w =>
          (true, { eng with
            worlds := assocPut eng.worlds world_id (w.add_agent agent_id),
            agent_to_world := assocPut eng.agent_to_world agent_id world_id })

/-- `WorldEngine::leave_world` (world_engine.cpp lines 826-845). -/
def leave_world (eng : WorldEngine) (agent_id : Nat) : Bool × WorldEngine :=
  match assocFind eng.agent_to_world agent_id with
  | none => (false, eng)
  | some world_id =>
      let worlds := match assocFind eng.worlds world_id with
        | some w => assocPut eng.worlds world_id (w.remove_agent agent_id)
        | none => eng.worlds
      (true, { eng with
        worlds := worlds,
        agent_to_world := assocErase eng.agent_to_world agent_id })

/-- `WorldEngine::snapshot_world` (world_engine.cpp lines 898-913), with
the wall clock passed explicitly. -/
def snapshot_world (eng : WorldEngine) (world_id : String) (now_ms : Int) :
    Option Json :=
  match assocFind eng.worlds world_id with
  | none => none
  | some w => w.to_json.setField "snapshot_time" (Json.num now_ms)

/-- `WorldEngine::restore_world` (world_engine.cpp lines 915-936). -/
def restore_world (eng : WorldEngine) (snapshot : Json) (new_world_id : String) :
    Option (String × WorldEngine) :=
  let id := if new_world_id = "" then
      generate_world_id (VirtualFilesystem.valueStrD snapshot "name" "restored")
        eng.next_world_num
    else new_world_id
  let eng1 := if new_world_id = "" then
      { eng with next_world_num := eng.next_world_num + 1 }
    else eng
  match assocFind eng1.worlds id with
  | some _ => none
  | none =>
      let world := (World.fresh id).from_json snapshot
      some (id, { eng1 with worlds := assocPut eng1.worlds id world })

end WorldEngine

/-! ## Event bus and SYS_EMIT (`src/src/kernel/event_bus.cpp`,
`src/src/kernel/syscalls/events.cpp`) -/

/-- `KernelEventType` (event_bus.hpp lines 15-27). -/
inductive KernelEventType : Type where
  | AGENT_SPAWNED
  | AGENT_EXITED
  | AGENT_PAUSED
  | AGENT_RESUMED
  | AGENT_RESTARTING
  | AGENT_ESCALATED
  | MESSAGE_RECEIVED
  | STATE_CHANGED
  | SYSCALL_BLOCKED
  | RESOURCE_WARNING
  | CUSTOM
  deriving DecidableEq, Repr

/-- `KernelEvent` (event_bus.hpp lines 30-35). -/
structure KernelEvent where
  type : KernelEventType
  data : Json
  timestamp : Int
  source_agent_id : Nat

/-- `EventBus` state (event_bus.hpp lines 78-79). -/
structure EventBus where
  subscriptions : List (Nat × List KernelEventType) := []
  queues : List (Nat × List KernelEvent) := []

/-- `EventBus::emit` (event_bus.cpp lines 6-21): append the event to the
queue of every subscriber whose subscription set contains its type
(`queues_[agent_id]` default-constructs an empty queue). -/
def EventBus.emit (bus : EventBus) (now : Int) (type : KernelEventType)
    (data : Json) (source_agent_id : Nat) : EventBus :=
  let event : KernelEvent :=
    { type := type, data := data, timestamp := now, source_agent_id := source_agent_id }
  { bus with queues := bus.subscriptions.foldl (fun qs sub =>
      if type ∈ sub.2 then assocPut qs sub.1 ((assocFind qs sub.1).getD [] ++ [event])
      else qs) bus.queues }

/-- `EventSyscalls::handle_emit` (events.cpp lines 142-161) on an
already-parsed JSON payload: the emitted type is always `CUSTOM`; a
requested name other than `"CUSTOM"` is recorded in the data under
`custom_type`.  `none` is the `catch` path (error response, bus
untouched): `value("event", ...)` throws on a non-string `event`, and
`event_data["custom_type"] = ...` throws when the data is neither an
object nor null.  Returns the bus after the emit, the response's
`event` echo, and the delivered event data. -/
def handle_emit (bus : EventBus) (now : Int) (agent_id : Nat) (j : Json) :
    Option (EventBus × String × Json) :=
  match j.valueStr "event" "CUSTOM" with
  | none => none
  | some event_name =>
      let event_data := (j.get "data").getD Json.null
      let data' := if event_name ≠ "CUSTOM"
        then event_data.setField "custom_type" (Json.str event_name)
        else some event_data
      match data' with
      | none => none
      | some d =>
          some (bus.emit now KernelEventType.CUSTOM d agent_id, event_name, d)

/-! ## World-operation traces

The engine mutations reachable through the world syscalls: create, join,
leave and destroy, folded over a trace from the freshly constructed
engine (`worlds_` and `agent_to_world_` empty, `next_world_num_ = 1`,
world_engine.hpp lines 402-407). -/

/-- One engine-mutating world operation. -/
inductive WorldOp : Type where
  | create : String → Json → WorldOp
  | join : Nat → String → WorldOp
  | leave : Nat → WorldOp
  | destroy : String → Bool → WorldOp

/-- Apply one operation, keeping only the resulting engine state. -/
def WorldEngine.applyOp (eng : WorldEngine) : WorldOp → WorldEngine
  | WorldOp.create name config => (eng.create_world name config).2
  | WorldOp.join agent_id world_id => (eng.join_world agent_id world_id).2
  | WorldOp.leave agent_id => (eng.leave_world agent_id).2
  | WorldOp.destroy world_id force => (eng.destroy_world world_id force).2

/-- The engine after a trace of operations from the initial state. -/
def WorldEngine.applyOps (ops : List WorldOp) : WorldEngine :=
  ops.foldl WorldEngine.applyOp {}

/-- The membership invariant: both maps are duplicate-free, each world's
member set is duplicate-free, the agent-to-world map points at existing
worlds that list the agent as a member, every member maps back to its
world, and every stored world id carries a `-NNNN` suffix minted from a
number below `next_world_num` (so the next generated id is fresh). -/
structure EngineInv (eng : WorldEngine) : Prop where
  worlds_nodup : (eng.worlds.map Prod.fst).Nodup
  a2w_nodup : (eng.agent_to_world.map Prod.fst).Nodup
  agents_nodup : ∀ wid w, assocFind eng.worlds wid = some w → w.agents.Nodup
  maps_to_member : ∀ a wid, assocFind eng.agent_to_world a = some wid →
    ∃ w, assocFind eng.worlds wid = some w ∧ a ∈ w.agents
  member_maps_back : ∀ wid w, assocFind eng.worlds wid = some w →
    ∀ a, a ∈ w.agents → assocFind eng.agent_to_world a = some wid
  fresh_ids : ∀ wid, wid ∈ eng.worlds.map Prod.fst → ∃ p n, 1 ≤ n ∧
    n < eng.next_world_num ∧ wid.data = p ++ '-' :: pad4Chars n
  next_pos : 1 ≤ eng.next_world_num

/-! ## Supporting lemmas -/

theorem assocFind_erase_other {α β : Type} [DecidableEq α]
    (l : List (α × β)) (k k' : α) (h : k ≠ k') :
    assocFind (assocErase l k) k' = assocFind l k' := by
  induction l with
  | nil => rfl
  | cons p rest ih =>
      by_cases hp : p.1 = k
      · simp [assocErase, hp, h]
      · simp [assocErase, hp, ih]

theorem string_data_append (s t : String) : (s ++ t).data = s.data ++ t.data := rfl

theorem make_agent_key_data (a : Nat) (k : String) :
    (make_agent_key a k).data = "agent:".data ++ (natChars a ++ ':' :: k.data) := by
  show ((("agent:" ++ natToString a) ++ ":") ++ k).data = _
  simp [string_data_append, natToString]

theorem make_agent_key_ne (a : Nat) (k : String) : make_agent_key a k ≠ k := by
  intro h
  have hd := congrArg (fun s => s.data.length) h
  simp only [make_agent_key_data, List.length_append, List.length_cons] at hd
  have := natChars_ne_nil a
  cases hne : natChars a with
  | nil => exact this hne
  | cons c t =>
      rw [hne] at hd
      simp [List.length_cons] at hd
      omega

theorem make_agent_key_inj_agent {a b : Nat} {k : String}
    (h : make_agent_key a k = make_agent_key b k) : a = b := by
  have hd := congrArg String.data h
  simp only [make_agent_key_data] at hd
  have hd2 : natChars a ++ ':' :: k.data = natChars b ++ ':' :: k.data :=
    List.append_cancel_left hd
  exact natChars_inj a b
    (append_sep_inj (natChars a) (natChars b) k.data k.data
      natChars_no_colon natChars_no_colon hd2).1

/-- The single physical write of `StateStore::store` on a non-empty key:
one key, which is either the bare key or the agent-scoped key, with the
expiry instant `now + ttl` when a TTL is present. -/
theorem store_shape (st : StateStore) (t0 : Int) (a : Nat) (k : String) (v : Json)
    (scope : String) (z : Int) (hk : ¬ k = "") :
    ∃ sk e, (st.store t0 a k v scope (some z)).2.entries = assocPut st.entries sk e ∧
      (sk = k ∨ sk = make_agent_key a k) ∧ e.expires_at = t0 + z := by
  rw [StateStore.store, if_neg hk]
  refine ⟨_, _, rfl, ?_, rfl⟩
  by_cases h : normalizeScope scope = "agent"
  · rw [if_pos h]; right; rfl
  · rw [if_neg h]; left; rfl


theorem fetchTry_none {st : StateStore} {now : Int} {b : Nat} {key : String}
    (h : assocFind st.entries key = none) :
    fetchTry st now b key = (none, st) := by
  rw [fetchTry, h]

theorem fetchTry_expired {st : StateStore} {now : Int} {b : Nat} {key : String}
    {e : StoredValue} (hf : assocFind st.entries key = some e)
    (he : e.is_expired now = true) :
    fetchTry st now b key = (none, ⟨assocErase st.entries key⟩) := by
  rw [fetchTry, hf]
  simp [he]

theorem fetchTry_found {st : StateStore} {now : Int} {b : Nat} {key : String}
    {e : StoredValue} (hf : assocFind st.entries key = some e)
    (he : e.is_expired now = false) (ha : StateStore.can_access_key b e = true) :
    fetchTry st now b key =
      (some { success := true, exists_ := true, value := e.value, scope := e.scope },
       st) := by
  rw [fetchTry, hf]
  simp [he, ha]

theorem fetch_result_second {st st1 : StateStore} {now : Int} {b : Nat}
    {k : String} {out : Option FetchResult × StateStore} (hk : ¬ k = "")
    (h1 : fetchTry st now b k = (none, st1))
    (h2 : fetchTry st1 now b (make_agent_key b k) = out) :
    st.fetch now b k =
      (match out with
       | (some r, st') => (r, st')
       | (none, st') => ({ success := true, exists_ := false, value := Json.null }, st')) := by
  rw [StateStore.fetch, if_neg hk, h1]
  simp only [h2]
  rcases out with ⟨_ | _, _⟩ <;> rfl

theorem fetch_result_first {st st1 : StateStore} {now : Int} {b : Nat}
    {k : String} {r : FetchResult} (hk : ¬ k = "")
    (h1 : fetchTry st now b k = (some r, st1)) :
    st.fetch now b k = (r, st1) := by
  rw [StateStore.fetch, if_neg hk, h1]

/-- **C1** (amended).  `StateStore::store` with a present non-positive
`ttl_secs` does *not* store a permanent entry: the entry's expiry
instant is `store_time + ttl_secs`, which is not in the future, so —
unless that instant coincides with the steady clock's epoch sentinel
(the `expires_at == time_point{}` check in `StoredValue::is_expired`) —
every fetch of that key strictly after the store reports
`exists = false` (and this holds for any caller and any scope, with no
other entry shadowing the key).  Only an absent `ttl_secs` stores a
permanent entry. -/
theorem c1_ttl_nonpositive_expires
    (st : StateStore) (t0 t1 : Int) (a b : Nat) (k : String) (v : Json)
    (scope : String) (z : Int)
    (hk : ¬ k = "") (hz : z ≤ 0) (hs : t0 + z ≠ 0) (ht : t0 < t1)
    (hbare : assocFind st.entries k = none)
    (hagent : assocFind st.entries (make_agent_key b k) = none) :
    (((st.store t0 a k v scope (some z)).2).fetch t1 b k).1.exists_ = false := by
  obtain ⟨sk, e, hst, hsk, hexp⟩ := store_shape st t0 a k v scope z hk
  set st' := (st.store t0 a k v scope (some z)).2 with hst'
  have hexpired : e.is_expired t1 = true := by
    simp only [StoredValue.is_expired, hexp, if_neg hs, decide_eq_true_eq]
    omega
  rcases hsk with hsk | hsk
  · rw [hsk] at hst
    have h1 := @fetchTry_expired st' t1 b k e
      (by rw [hst]; exact assocFind_put_self _ _ _) hexpired
    have hkne : k ≠ make_agent_key b k := (make_agent_key_ne b k).symm
    have h2 := @fetchTry_none ⟨assocErase st'.entries k⟩ t1 b (make_agent_key b k)
      (by show assocFind (assocErase st'.entries k) (make_agent_key b k) = none
          rw [assocFind_erase_other _ _ _ hkne, hst,
            assocFind_put_other _ _ _ _ hkne, hagent])
    rw [fetch_result_second hk h1 h2]
  · rw [hsk] at hst
    have hak : make_agent_key a k ≠ k := make_agent_key_ne a k
    have h1 := @fetchTry_none st' t1 b k
      (by rw [hst, assocFind_put_other _ _ _ _ hak, hbare])
    by_cases hab : make_agent_key a k = make_agent_key b k
    · have h2 := @fetchTry_expired st' t1 b (make_agent_key b k) e
        (by rw [hst, ← hab, assocFind_put_self]) hexpired
      rw [fetch_result_second hk h1 h2]
    · have h2 := @fetchTry_none st' t1 b (make_agent_key b k)
        (by rw [hst, assocFind_put_other _ _ _ _ hab, hagent])
      rw [fetch_result_second hk h1 h2]

/-- **C1, counterexample.**  The claim as stated is false: storing key
`"k"` at time 100 with `ttl_secs = 0` (non-positive) and fetching it at
time 101 by its owner — an authorized agent — reports `exists = false`,
not `exists = true`; with the TTL absent the same fetch reports
`exists = true`, so the two cases also differ. -/
theorem c1_counterexample :
    ((((StateStore.mk []).store 100 1 "k" (Json.num 7) "global" (some 0)).2).fetch
        101 1 "k").1.exists_ = false ∧
    ((((StateStore.mk []).store 100 1 "k" (Json.num 7) "global" none).2).fetch
        101 1 "k").1.exists_ = true := by
  constructor <;> decide

/-- **C1, witness** for the amended theorem at a concrete input. -/
theorem c1_witness :
    ((((StateStore.mk []).store 100 2 "x" (Json.str "v") "session" (some (-5))).2).fetch
        200 3 "x").1.exists_ = false :=
  c1_ttl_nonpositive_expires (StateStore.mk []) 100 200 2 3 "x" (Json.str "v")
    "session" (-5) (by decide) (by decide) (by decide) (by decide) rfl rfl

theorem backoffLoop_formula (cfg : RestartConfig) (hm : 1 ≤ cfg.backoff_multiplier) :
    ∀ (j : Nat) (d : ℚ), 0 ≤ d →
      backoffLoop cfg d (j + 1) =
        min (⌊d * cfg.backoff_multiplier ^ (j + 1)⌋.toNat) cfg.backoff_max_ms := by
  intro j
  induction j with
  | zero =>
      intro d hd
      simp only [backoffLoop]
      by_cases h : (cfg.backoff_max_ms : ℚ) ≤ d * cfg.backoff_multiplier
      · rw [if_pos h, pow_one]
        have hf : (cfg.backoff_max_ms : ℤ) ≤ ⌊d * cfg.backoff_multiplier⌋ := by
          rw [Int.le_floor]
          exact_mod_cast h
        omega
      · rw [if_neg h, pow_one]
        have hf : ⌊d * cfg.backoff_multiplier⌋ < (cfg.backoff_max_ms : ℤ) := by
          rw [Int.floor_lt]
          exact_mod_cast not_le.mp h
        omega
  | succ j ih =>
      intro d hd
      have hstep : backoffLoop cfg d (j + 1 + 1) =
          if (cfg.backoff_max_ms : ℚ) ≤ d * cfg.backoff_multiplier
          then cfg.backoff_max_ms
          else backoffLoop cfg (d * cfg.backoff_multiplier) (j + 1) := by
        rw [backoffLoop]
      rw [hstep]
      have hμ0 : (0 : ℚ) ≤ cfg.backoff_multiplier := le_trans zero_le_one hm
      by_cases h : (cfg.backoff_max_ms : ℚ) ≤ d * cfg.backoff_multiplier
      · rw [if_pos h]
        have hstep : d * cfg.backoff_multiplier ≤
            d * cfg.backoff_multiplier ^ (j + 1 + 1) := by
          calc d * cfg.backoff_multiplier
              = d * cfg.backoff_multiplier * 1 := by ring
            _ ≤ d * cfg.backoff_multiplier * cfg.backoff_multiplier ^ (j + 1) := by
                have h1 : (1 : ℚ) ≤ cfg.backoff_multiplier ^ (j + 1) := one_le_pow₀ hm
                have h2 : (0 : ℚ) ≤ d * cfg.backoff_multiplier := mul_nonneg hd hμ0
                nlinarith
            _ = d * cfg.backoff_multiplier ^ (j + 1 + 1) := by ring
        have hf : (cfg.backoff_max_ms : ℤ) ≤
            ⌊d * cfg.backoff_multiplier ^ (j + 1 + 1)⌋ := by
          rw [Int.le_floor]
          exact_mod_cast le_trans h hstep
        omega
      · rw [if_neg h]
        rw [ih (d * cfg.backoff_multiplier) (mul_nonneg hd hμ0)]
        rw [show d * cfg.backoff_multiplier * cfg.backoff_multiplier ^ (j + 1) =
          d * cfg.backoff_multiplier ^ (j + 1 + 1) by ring]

/-- **C2** (amended).  The nth restart delay — `calculate_backoff_delay`
at `consecutive_failures = n-1` — is `backoff_initial_ms` *uncapped* for
`n = 1` (the loop is skipped, so `backoff_max_ms` is never compared);
for `n ≥ 2` and a multiplier ≥ 1 it is
`min(⌊backoff_initial_ms · multiplier^(n-1)⌋, backoff_max_ms)` (the
`static_cast<uint32_t>` truncates the `double` product).  The claimed
instance `initial=100, multiplier=2, max=1000` giving delays
`100, 200, 400, 800, 1000` for failures 1..5 holds (see the witness). -/
theorem c2_backoff_formula (cfg : RestartConfig) (n : Nat)
    (hm : 1 ≤ cfg.backoff_multiplier) (hn : 1 ≤ n) :
    calculate_backoff_delay cfg (n - 1) =
      if n = 1 then cfg.backoff_initial_ms
      else min (⌊(cfg.backoff_initial_ms : ℚ) * cfg.backoff_multiplier ^ (n - 1)⌋.toNat)
        cfg.backoff_max_ms := by
  by_cases h1 : n = 1
  · subst h1
    simp [calculate_backoff_delay]
  · have h2 : n - 1 = (n - 2) + 1 := by omega
    rw [if_neg h1, calculate_backoff_delay, if_neg (by omega : ¬ (n - 1 = 0)), h2,
      backoffLoop_formula cfg hm (n - 2) _ (by positivity)]

/-- **C2, counterexample.**  With `backoff_initial_ms = 2000` and
`backoff_max_ms = 1000`, the first delay (`consecutive_failures = 0`,
i.e. `n = 1`) is 2000, but `min(initial · multiplier^0, max) = 1000`:
the code returns the initial delay uncapped, so the claimed formula is
false as stated. -/
theorem c2_counterexample :
    calculate_backoff_delay
      { policy := .ALWAYS, max_restarts := 5, restart_window_sec := 300,
        backoff_initial_ms := 2000, backoff_max_ms := 1000,
        backoff_multiplier := 2 } 0 = 2000 ∧
    min (⌊(2000 : ℚ) * (2 : ℚ) ^ 0⌋.toNat) 1000 = 1000 := by
  constructor
  · rfl
  · rw [pow_zero, mul_one, show ((2000 : ℚ)) = ((2000 : ℕ) : ℚ) by norm_num,
      Int.floor_natCast]
    decide

/-- **C2, witness**: the spec's E4 instance derived from the amended
formula.  With `initial=100, multiplier=2, max=1000` the delays for
failures 1..5 are 100, 200, 400, 800, 1000. -/
theorem c2_witness :
    (calculate_backoff_delay
        { policy := .ALWAYS, max_restarts := 5, restart_window_sec := 300,
          backoff_initial_ms := 100, backoff_max_ms := 1000,
          backoff_multiplier := 2 } 0,
     calculate_backoff_delay
        { policy := .ALWAYS, max_restarts := 5, restart_window_sec := 300,
          backoff_initial_ms := 100, backoff_max_ms := 1000,
          backoff_multiplier := 2 } 1,
     calculate_backoff_delay
        { policy := .ALWAYS, max_restarts := 5, restart_window_sec := 300,
          backoff_initial_ms := 100, backoff_max_ms := 1000,
          backoff_multiplier := 2 } 2,
     calculate_backoff_delay
        { policy := .ALWAYS, max_restarts := 5, restart_window_sec := 300,
          backoff_initial_ms := 100, backoff_max_ms := 1000,
          backoff_multiplier := 2 } 3,
     calculate_backoff_delay
        { policy := .ALWAYS, max_restarts := 5, restart_window_sec := 300,
          backoff_initial_ms := 100, backoff_max_ms := 1000,
          backoff_multiplier := 2 } 4) = (100, 200, 400, 800, 1000) := by
  have e1 := c2_backoff_formula
    { policy := .ALWAYS, max_restarts := 5, restart_window_sec := 300,
      backoff_initial_ms := 100, backoff_max_ms := 1000,
      backoff_multiplier := 2 } 1 (by norm_num) (by norm_num)
  have e2 := c2_backoff_formula
    { policy := .ALWAYS, max_restarts := 5, restart_window_sec := 300,
      backoff_initial_ms := 100, backoff_max_ms := 1000,
      backoff_multiplier := 2 } 2 (by norm_num) (by norm_num)
  have e3 := c2_backoff_formula
    { policy := .ALWAYS, max_restarts := 5, restart_window_sec := 300,
      backoff_initial_ms := 100, backoff_max_ms := 1000,
      backoff_multiplier := 2 } 3 (by norm_num) (by norm_num)
  have e4 := c2_backoff_formula
    { policy := .ALWAYS, max_restarts := 5, restart_window_sec := 300,
      backoff_initial_ms := 100, backoff_max_ms := 1000,
      backoff_multiplier := 2 } 4 (by norm_num) (by norm_num)
  have e5 := c2_backoff_formula
    { policy := .ALWAYS, max_restarts := 5, restart_window_sec := 300,
      backoff_initial_ms := 100, backoff_max_ms := 1000,
      backoff_multiplier := 2 } 5 (by norm_num) (by norm_num)
  norm_num at e1 e2 e3 e4 e5
  simp only [Prod.mk.injEq]
  refine ⟨e1, by omega, by omega, by omega, by omega⟩

theorem assocFind_eq_some_split {α β : Type} [DecidableEq α]
    {l : List (α × β)} {a : α} {s : β} (h : assocFind l a = some s) :
    ∃ l₁ l₂, l = l₁ ++ (a, s) :: l₂ ∧ ∀ p ∈ l₁, p.1 ≠ a := by
  induction l with
  | nil => simp at h
  | cons p rest ih =>
      by_cases hp : p.1 = a
      · refine ⟨[], rest, ?_, by simp⟩
        simp [assocFind_cons, hp] at h
        rw [show p = (a, s) from Prod.ext hp h]
        simp
      · simp [assocFind_cons, hp] at h
        obtain ⟨l₁, l₂, heq, hl₁⟩ := ih h
        exact ⟨p :: l₁, l₂, by simp [heq], by
          intro q hq
          rcases List.mem_cons.mp hq with rfl | hq
          · exact hp
          · exact hl₁ q hq⟩

theorem emit_fold_skip (type : KernelEventType) (event : KernelEvent)
    (l : List (Nat × List KernelEventType)) (qs : List (Nat × List KernelEvent))
    (a : Nat) (h : ∀ p ∈ l, p.1 = a → type ∉ p.2) :
    assocFind (l.foldl (fun qs sub =>
      if type ∈ sub.2 then assocPut qs sub.1 ((assocFind qs sub.1).getD [] ++ [event])
      else qs) qs) a = assocFind qs a := by
  induction l generalizing qs with
  | nil => rfl
  | cons p rest ih =>
      simp only [List.foldl_cons]
      rw [ih _ (fun q hq => h q (List.mem_cons_of_mem _ hq))]
      by_cases ht : type ∈ p.2
      · rw [if_pos ht]
        have hpa : p.1 ≠ a := fun he => h p (List.mem_cons_self _ _) he ht
        rw [assocFind_put_other _ _ _ _ hpa]
      · rw [if_neg ht]

theorem emit_fold_hit (type : KernelEventType) (event : KernelEvent)
    (l₁ l₂ : List (Nat × List KernelEventType)) (qs : List (Nat × List KernelEvent))
    (a : Nat) (s : List KernelEventType)
    (h₁ : ∀ p ∈ l₁, p.1 ≠ a) (h₂ : ∀ p ∈ l₂, p.1 ≠ a) (hs : type ∈ s) :
    assocFind ((l₁ ++ (a, s) :: l₂).foldl (fun qs sub =>
      if type ∈ sub.2 then assocPut qs sub.1 ((assocFind qs sub.1).getD [] ++ [event])
      else qs) qs) a = some ((assocFind qs a).getD [] ++ [event]) := by
  rw [List.foldl_append, List.foldl_cons]
  have hqs1 : ∀ (qs' : List (Nat × List KernelEvent)),
      assocFind (l₁.foldl (fun qs sub =>
        if type ∈ sub.2 then assocPut qs sub.1 ((assocFind qs sub.1).getD [] ++ [event])
        else qs) qs') a = assocFind qs' a := by
    intro qs'
    exact emit_fold_skip type event l₁ qs' a (fun p hp he => absurd he (h₁ p hp))
  rw [emit_fold_skip type event l₂ _ a (fun p hp he => absurd he (h₂ p hp))]
  simp only [if_pos hs]
  rw [assocFind_put_self, hqs1]

theorem setField_get {j j' : Json} {k : String} {v : Json}
    (h : j.setField k v = some j') : j'.get k = some v := by
  cases j <;> simp [Json.setField] at h <;> subst h <;>
    simp [Json.get, assocFind_put_self, assocFind_cons]

theorem handle_emit_inv {bus : EventBus} {now : Int} {agent : Nat} {j : Json}
    {bus' : EventBus} {name : String} {d : Json}
    (h : handle_emit bus now agent j = some (bus', name, d)) :
    bus' = bus.emit now KernelEventType.CUSTOM d agent ∧
    (name ≠ "CUSTOM" → d.get "custom_type" = some (Json.str name)) := by
  rw [handle_emit] at h
  cases hval : j.valueStr "event" "CUSTOM" with
  | none => rw [hval] at h; simp at h
  | some nm =>
      rw [hval] at h
      by_cases hnm : nm = "CUSTOM"
      · subst hnm
        simp at h
        obtain ⟨h1, h2, h3⟩ := h
        subst h1 h2 h3
        exact ⟨rfl, by intro hc; exact absurd rfl hc⟩
      · simp only [ne_eq, hnm, not_false_eq_true, if_true] at h
        cases hset : Json.setField ((j.get "data").getD Json.null) "custom_type"
            (Json.str nm) with
        | none => rw [hset] at h; simp at h
        | some d0 =>
            rw [hset] at h
            simp at h
            obtain ⟨h1, h2, h3⟩ := h
            subst h1 h2 h3
            exact ⟨rfl, fun _ => setField_get hset⟩

theorem assocFind_eq_none_forall {α β : Type} [DecidableEq α]
    {l : List (α × β)} {a : α} (h : assocFind l a = none) :
    ∀ p ∈ l, p.1 ≠ a := by
  induction l with
  | nil => simp
  | cons q rest ih =>
      intro p hp
      by_cases hq : q.1 = a
      · simp [assocFind_cons, hq] at h
      · simp [assocFind_cons, hq] at h
        rcases List.mem_cons.mp hp with rfl | hp
        · exact hq
        · exact ih h p hp

theorem assocFind_nodup_unique {α β : Type} [DecidableEq α]
    {l : List (α × β)} (hnodup : (l.map Prod.fst).Nodup) {a : α} {s : β}
    (hfind : assocFind l a = some s) :
    ∀ p ∈ l, p.1 = a → p.2 = s := by
  induction l with
  | nil => simp at hfind
  | cons q rest ih =>
      intro p hp hpa
      simp only [List.map_cons, List.nodup_cons] at hnodup
      by_cases hq : q.1 = a
      · simp [assocFind_cons, hq] at hfind
        rcases List.mem_cons.mp hp with rfl | hp
        · rw [hfind]
        · exfalso
          have hm : p.1 ∈ List.map Prod.fst rest := List.mem_map_of_mem Prod.fst hp
          rw [hpa, ← hq] at hm
          exact hnodup.1 hm
      · simp [assocFind_cons, hq] at hfind
        rcases List.mem_cons.mp hp with rfl | hp
        · exact absurd hpa hq
        · exact ih hnodup.2 hfind p hp hpa

/-- **C9.**  Every well-formed `SYS_EMIT` request delivers an event of
type `CUSTOM`, whatever event name was requested — even a name matching
a known kernel event type: an agent whose subscription set does not
contain `CUSTOM` (or who has no subscription record) sees its queue
unchanged, an agent subscribed to `CUSTOM` gets exactly one appended
event of type `CUSTOM`, and when the requested name differs from
`"CUSTOM"` it is recorded in the delivered data under `custom_type`. -/
theorem c9_emit_custom
    (bus : EventBus) (now : Int) (agent : Nat) (j : Json)
    (bus' : EventBus) (name : String) (d : Json)
    (hnodup : (bus.subscriptions.map Prod.fst).Nodup)
    (h : handle_emit bus now agent j = some (bus', name, d)) :
    (∀ a subs, assocFind bus.subscriptions a = some subs →
      KernelEventType.CUSTOM ∉ subs →
      assocFind bus'.queues a = assocFind bus.queues a) ∧
    (∀ a, assocFind bus.subscriptions a = none →
      assocFind bus'.queues a = assocFind bus.queues a) ∧
    (∀ a subs, assocFind bus.subscriptions a = some subs →
      KernelEventType.CUSTOM ∈ subs →
      assocFind bus'.queues a =
        some ((assocFind bus.queues a).getD [] ++
          [{ type := KernelEventType.CUSTOM, data := d, timestamp := now,
             source_agent_id := agent }])) ∧
    (name ≠ "CUSTOM" → d.get "custom_type" = some (Json.str name)) := by
  obtain ⟨hbus, hct⟩ := handle_emit_inv h
  subst hbus
  refine ⟨?_, ?_, ?_, hct⟩
  · intro a subs hfind hmem
    exact emit_fold_skip _ _ _ _ _ (fun p hp hpa => by
      rw [assocFind_nodup_unique hnodup hfind p hp hpa]; exact hmem)
  · intro a hfind
    exact emit_fold_skip _ _ _ _ _ (fun p hp hpa =>
      absurd hpa (assocFind_eq_none_forall hfind p hp))
  · intro a subs hfind hmem
    obtain ⟨l₁, l₂, heq, hl₁⟩ := assocFind_eq_some_split hfind
    have hl₂ : ∀ p ∈ l₂, p.1 ≠ a := by
      rw [heq] at hnodup
      simp only [List.map_append, List.map_cons] at hnodup
      have h2 := (List.Nodup.of_append_right hnodup)
      rw [List.nodup_cons] at h2
      intro p hp hpa
      exact h2.1 (by rw [← hpa]; exact List.mem_map_of_mem Prod.fst hp)
    show assocFind (EventBus.emit bus now KernelEventType.CUSTOM d agent).queues a = _
    simp only [EventBus.emit]
    rw [heq]
    exact emit_fold_hit _ _ l₁ l₂ _ a subs hl₁ hl₂ hmem

/-- **C9, witness.**  Agent 7 emits `{"event": "AGENT_EXITED", "data": {}}`
(a known kernel event name).  Agent 1, subscribed only to
`MESSAGE_RECEIVED`, receives nothing; agent 2, subscribed to `CUSTOM`,
receives one event of type `CUSTOM` whose data carries
`custom_type = "AGENT_EXITED"`. -/
theorem c9_witness :
    assocFind (EventBus.emit
        { subscriptions := [(1, [KernelEventType.MESSAGE_RECEIVED]),
                            (2, [KernelEventType.CUSTOM])], queues := [] }
        5 KernelEventType.CUSTOM
        (Json.obj [("custom_type", Json.str "AGENT_EXITED")]) 7).queues 1 = none ∧
    assocFind (EventBus.emit
        { subscriptions := [(1, [KernelEventType.MESSAGE_RECEIVED]),
                            (2, [KernelEventType.CUSTOM])], queues := [] }
        5 KernelEventType.CUSTOM
        (Json.obj [("custom_type", Json.str "AGENT_EXITED")]) 7).queues 2 =
      some [{ type := KernelEventType.CUSTOM,
              data := Json.obj [("custom_type", Json.str "AGENT_EXITED")],
              timestamp := 5, source_agent_id := 7 }] ∧
    (Json.obj [("custom_type", Json.str "AGENT_EXITED")]).get "custom_type" =
      some (Json.str "AGENT_EXITED") := by
  have h : handle_emit
      { subscriptions := [(1, [KernelEventType.MESSAGE_RECEIVED]),
                          (2, [KernelEventType.CUSTOM])], queues := [] }
      5 7 (Json.obj [("event", Json.str "AGENT_EXITED"), ("data", Json.obj [])]) =
      some (EventBus.emit
        { subscriptions := [(1, [KernelEventType.MESSAGE_RECEIVED]),
                            (2, [KernelEventType.CUSTOM])], queues := [] }
        5 KernelEventType.CUSTOM
        (Json.obj [("custom_type", Json.str "AGENT_EXITED")]) 7,
        "AGENT_EXITED", Json.obj [("custom_type", Json.str "AGENT_EXITED")]) := rfl
  have main := c9_emit_custom _ 5 7 _ _ _ _ (by decide) h
  refine ⟨?_, ?_, main.2.2.2 (by decide)⟩
  · exact (main.1 1 [KernelEventType.MESSAGE_RECEIVED] rfl (by decide)).trans rfl
  · exact (main.2.2.1 2 [KernelEventType.CUSTOM] rfl (by decide)).trans rfl

theorem store_agent_entries (st : StateStore) (t0 : Int) (a : Nat) (k : String)
    (v : Json) (hk : ¬ k = "") :
    (st.store t0 a k v "agent" none).2.entries =
      assocPut st.entries (make_agent_key a k)
        { value := v, expires_at := 0, owner_agent_id := a, scope := "agent" } := by
  rw [StateStore.store, if_neg hk]
  have h : normalizeScope "agent" = "agent" := by decide
  simp [h]

/-- **C5.**  Agent-scoped entries are readable only by their owner:
after `store(a, k, v, scope="agent")` (and no other write to `k` — the
pre-state holds nothing under the bare key `k` or under agent `b`'s
scoped key), `fetch(b, k)` with `b ≠ a` reports `exists = false`, while
`fetch(a, k)` reports `exists = true` with value `v` and scope
`"agent"`, at any times. -/
theorem c5_agent_scope_isolation
    (st : StateStore) (t0 t1 t2 : Int) (a b : Nat) (k : String) (v : Json)
    (hab : a ≠ b) (hk : ¬ k = "")
    (hbare : assocFind st.entries k = none)
    (hbk : assocFind st.entries (make_agent_key b k) = none) :
    (((st.store t0 a k v "agent" none).2).fetch t1 b k).1.exists_ = false ∧
    (((st.store t0 a k v "agent" none).2).fetch t2 a k).1 =
      { success := true, exists_ := true, value := v, scope := "agent" } := by
  have hst := store_agent_entries st t0 a k v hk
  have hak : make_agent_key a k ≠ k := make_agent_key_ne a k
  have hne : make_agent_key a k ≠ make_agent_key b k :=
    fun heq => hab (make_agent_key_inj_agent heq)
  constructor
  · have h1 := @fetchTry_none (st.store t0 a k v "agent" none).2 t1 b k
      (by rw [hst, assocFind_put_other _ _ _ _ hak, hbare])
    have h2 := @fetchTry_none (st.store t0 a k v "agent" none).2 t1 b
      (make_agent_key b k)
      (by rw [hst, assocFind_put_other _ _ _ _ hne, hbk])
    rw [fetch_result_second hk h1 h2]
  · have h1 := @fetchTry_none (st.store t0 a k v "agent" none).2 t2 a k
      (by rw [hst, assocFind_put_other _ _ _ _ hak, hbare])
    have h2 := @fetchTry_found (st.store t0 a k v "agent" none).2 t2 a
      (make_agent_key a k)
      { value := v, expires_at := 0, owner_agent_id := a, scope := "agent" }
      (by rw [hst, assocFind_put_self]) rfl
      (by simp [StateStore.can_access_key])
    rw [fetch_result_second hk h1 h2]

/-- **C5, witness**: the spec's E2 instance.  `store(7, "x", 42, agent)`;
`fetch(7, "x")` sees value 42 with scope `agent`; `fetch(8, "x")`
reports `exists=false`. -/
theorem c5_witness :
    ((((StateStore.mk []).store 10 7 "x" (Json.num 42) "agent" none).2).fetch
        11 8 "x").1.exists_ = false ∧
    ((((StateStore.mk []).store 10 7 "x" (Json.num 42) "agent" none).2).fetch
        12 7 "x").1 =
      { success := true, exists_ := true, value := Json.num 42, scope := "agent" } := by
  have h := c5_agent_scope_isolation (StateStore.mk []) 10 11 12 7 8 "x"
    (Json.num 42) (by decide) (by decide) rfl rfl
  exact ⟨h.1, h.2⟩

theorem assocFind_eq_some_of_mem {α β : Type} [DecidableEq α]
    {l : List (α × β)} (hnodup : (l.map Prod.fst).Nodup) {k : α} {e : β}
    (h : (k, e) ∈ l) : assocFind l k = some e := by
  induction l with
  | nil => simp at h
  | cons q rest ih =>
      simp only [List.map_cons, List.nodup_cons] at hnodup
      by_cases hq : q.1 = k
      · rcases List.mem_cons.mp h with rfl | h
        · simp [assocFind_cons]
        · exfalso
          have : k ∈ List.map Prod.fst rest := List.mem_map_of_mem Prod.fst h
          rw [← hq] at this
          exact hnodup.1 this
      · rcases List.mem_cons.mp h with rfl | h
        · exact absurd rfl hq
        · simp [assocFind_cons, hq]
          exact ih hnodup.2 h

/-- **C4** (amended).  `StateStore::keys(a, prefix)` filters by the
prefix against the *physical* key, not against the user-visible
(stripped) name: a name is returned exactly when some physical key `k`
holds an unexpired entry the agent may access, the physical `k` starts
with the prefix, and the name is `k` with the internal
`agent:<id>:` prefix stripped.  (An agent-scoped entry whose
user-visible name starts with the prefix is therefore *omitted*
whenever its physical `agent:<id>:<key>` form does not.) -/
theorem c4_keys_characterization
    (st : StateStore) (now : Int) (a : Nat) (pre name : String)
    (hnodup : (st.entries.map Prod.fst).Nodup) :
    name ∈ (st.keys now a pre).1 ↔
      ∃ k e, assocFind st.entries k = some e ∧ e.is_expired now = false ∧
        StateStore.can_access_key a e = true ∧
        (pre = "" ∨ strStartsWith k pre = true) ∧
        name = stripAgentKey k := by
  rw [StateStore.keys]
  simp only [List.mem_filterMap, List.mem_filter]
  constructor
  · rintro ⟨⟨k, e⟩, ⟨hmem, hlive⟩, hf⟩
    by_cases hacc : StateStore.can_access_key a e
    · rw [if_neg (by simp [hacc])] at hf
      by_cases hpre : pre = "" ∨ strStartsWith k pre
      · rw [if_pos hpre] at hf
        refine ⟨k, e, assocFind_eq_some_of_mem hnodup hmem, by simpa using hlive,
          hacc, ?_, (Option.some.injEq _ _).mp hf.symm⟩
        rcases hpre with h | h
        · exact Or.inl h
        · exact Or.inr h
      · rw [if_neg hpre] at hf
        simp at hf
    · rw [if_pos (by simp [hacc])] at hf
      simp at hf
  · rintro ⟨k, e, hfind, hexp, hacc, hpre, hname⟩
    obtain ⟨l₁, l₂, heq, _⟩ := assocFind_eq_some_split hfind
    refine ⟨(k, e), ⟨by rw [heq]; simp, by simpa using hexp⟩, ?_⟩
    rw [if_neg (by simp [hacc]), if_pos (by
      rcases hpre with h | h
      · exact Or.inl h
      · exact Or.inr h)]
    rw [hname]

/-- **C4, counterexample.**  After `store(7, "foo", 1, scope="agent")`
the physical key is `agent:7:foo` and the user-visible name is `foo`,
which starts with the prefix `"foo"` — yet `keys(7, "foo")` returns
nothing, because the filter tests the physical key. -/
theorem c4_counterexample :
    ((((StateStore.mk []).store 0 7 "foo" (Json.num 1) "agent" none).2).keys
        1 7 "foo").1 = [] ∧
    stripAgentKey "agent:7:foo" = "foo" ∧
    strStartsWith (stripAgentKey "agent:7:foo") "foo" = true := by
  refine ⟨?_, by decide, by decide⟩
  decide

/-- **C4, witness** for the amended characterization: with the physical
key `agent:7:bar` stored and prefix `agent:`, the stripped name `bar`
is returned. -/
theorem c4_witness :
    "bar" ∈ ((StateStore.mk [("agent:7:bar",
      { value := Json.num 1, expires_at := 0, owner_agent_id := 7,
        scope := "agent" })]).keys 1 7 "agent:").1 :=
  (c4_keys_characterization
    (StateStore.mk [("agent:7:bar",
      { value := Json.num 1, expires_at := 0, owner_agent_id := 7,
        scope := "agent" })]) 1 7 "agent:" "bar" (by decide)).mpr
    ⟨"agent:7:bar",
     { value := Json.num 1, expires_at := 0, owner_agent_id := 7, scope := "agent" },
     rfl, rfl, by decide, Or.inr (by decide), by decide⟩

theorem write_eq_readonly {fs : VirtualFilesystem} {p c : String} {append : Bool}
    {f : VirtualFile} (hfind : assocFind fs.files (normalize_path p) = some f)
    (hmode : f.mode = "r") : fs.write p c append = (false, fs) := by
  simp only [VirtualFilesystem.write]
  rw [hfind]
  simp [hmode]

theorem write_eq_update {fs : VirtualFilesystem} {p c : String} {append : Bool}
    {f : VirtualFile} (hfind : assocFind fs.files (normalize_path p) = some f)
    (hmode : ¬ f.mode = "r") :
    fs.write p c append = (true, { fs with files := (assocPut fs.files
      (normalize_path p) { f with content := if append then f.content ++ c else c }) }) := by
  simp only [VirtualFilesystem.write]
  rw [hfind]
  simp [hmode]

theorem write_eq_denied {fs : VirtualFilesystem} {p c : String} {append : Bool}
    (hfind : assocFind fs.files (normalize_path p) = none)
    (hpat : fs.writable_patterns ≠ [])
    (hmatch : matches_any (normalize_path p) fs.writable_patterns = false) :
    fs.write p c append = (false, fs) := by
  simp only [VirtualFilesystem.write]
  rw [hfind]
  simp [hpat, hmatch]

theorem write_eq_create {fs : VirtualFilesystem} {p c : String} {append : Bool}
    (hfind : assocFind fs.files (normalize_path p) = none)
    (h : matches_any (normalize_path p) fs.writable_patterns = true ∨
      fs.writable_patterns = []) :
    fs.write p c append = (true, { fs with files := (assocPut fs.files
      (normalize_path p) { content := c, mode := "rw" }) }) := by
  simp only [VirtualFilesystem.write]
  rw [hfind]
  rcases h with h | h <;> simp [h]

/-- **C3** (amended).  `VirtualFilesystem::write(p, content, append)` is
denied — returning `false` and leaving the file map unchanged — exactly
when the normalized target exists with mode `"r"`, or when the target
does *not* exist, `writable_patterns` is non-empty and the normalized
path matches none of them.  The pattern check guards only file
*creation*: an existing `rw` file is updated even when it matches no
writable pattern.  On success the file is created with mode `rw` or its
content replaced/appended. -/
theorem c3_write_denial_characterization
    (fs : VirtualFilesystem) (p c : String) (append : Bool) :
    ((fs.write p c append).1 = false ↔
      (∃ f, assocFind fs.files (normalize_path p) = some f ∧ f.mode = "r") ∨
      (assocFind fs.files (normalize_path p) = none ∧ fs.writable_patterns ≠ [] ∧
        matches_any (normalize_path p) fs.writable_patterns = false)) ∧
    ((fs.write p c append).1 = false → (fs.write p c append).2 = fs) ∧
    ((fs.write p c append).1 = true →
      assocFind (fs.write p c append).2.files (normalize_path p) =
        some (match assocFind fs.files (normalize_path p) with
          | some f => { f with content := if append then f.content ++ c else c }
          | none => { content := c, mode := "rw" })) := by
  cases hfind : assocFind fs.files (normalize_path p) with
  | some f =>
      by_cases hmode : f.mode = "r"
      · rw [write_eq_readonly hfind hmode]
        refine ⟨⟨fun _ => Or.inl ⟨f, rfl, hmode⟩, fun _ => rfl⟩, fun _ => rfl, ?_⟩
        intro h
        simp at h
      · rw [write_eq_update hfind hmode]
        refine ⟨⟨fun h => by simp at h, ?_⟩, fun h => by simp at h, ?_⟩
        · rintro (⟨f', hf', hm'⟩ | ⟨hn, _, _⟩)
          · have hff : f = f' := (Option.some.injEq _ _).mp hf'
            rw [hff] at hmode
            exact absurd hm' hmode
          · simp at hn
        · intro _
          exact assocFind_put_self _ _ _
  | none =>
      by_cases hpat : fs.writable_patterns = []
      · rw [write_eq_create hfind (Or.inr hpat)]
        refine ⟨⟨fun h => by simp at h, ?_⟩, fun h => by simp at h, ?_⟩
        · rintro (⟨f', hf', _⟩ | ⟨_, hne, _⟩)
          · simp at hf'
          · exact absurd hpat hne
        · intro _
          exact assocFind_put_self _ _ _
      · cases hmatch : matches_any (normalize_path p) fs.writable_patterns with
        | false =>
            rw [write_eq_denied hfind hpat hmatch]
            refine ⟨⟨fun _ => Or.inr ⟨rfl, hpat, rfl⟩, fun _ => rfl⟩,
              fun _ => rfl, ?_⟩
            intro h
            simp at h
        | true =>
            rw [write_eq_create hfind (Or.inl hmatch)]
            refine ⟨⟨fun h => by simp at h, ?_⟩, fun h => by simp at h, ?_⟩
            · rintro (⟨f', hf', _⟩ | ⟨_, _, hm⟩)
              · simp at hf'
              · simp at hm
            · intro _
              exact assocFind_put_self _ _ _

/-- **C3, counterexample.**  The file `/etc/x` exists with mode `rw` and
`writable_patterns = ["/data/*"]` is non-empty while `/etc/x` matches
none of them — the claim says the write must be denied, yet it
succeeds. -/
theorem c3_counterexample :
    (VirtualFilesystem.write
      { files := [("/etc/x", { content := "old", mode := "rw" })],
        writable_patterns := ["/data/*"] } "/etc/x" "new" false).1 = true ∧
    matches_any (normalize_path "/etc/x") ["/data/*"] = false ∧
    (["/data/*"] : List String) ≠ [] := by
  refine ⟨by decide, by decide, by decide⟩

/-- **C3, witness** for the amended characterization: a write to an
existing mode-`r` file is denied and leaves the filesystem unchanged. -/
theorem c3_witness :
    (VirtualFilesystem.write
      { files := [("/a", { content := "x", mode := "r" })] } "/a" "y" false).1 =
      false ∧
    (VirtualFilesystem.write
      { files := [("/a", { content := "x", mode := "r" })] } "/a" "y" false).2 =
      { files := [("/a", { content := "x", mode := "r" })] } := by
  have h := c3_write_denial_characterization
    { files := [("/a", { content := "x", mode := "r" })] } "/a" "y" false
  have hd := h.1.mpr (Or.inl ⟨{ content := "x", mode := "r" }, rfl, rfl⟩)
  exact ⟨hd, h.2.1 hd⟩

theorem assocFind_eq_none_of_not_mem {α β : Type} [DecidableEq α]
    {l : List (α × β)} {k : α} (h : k ∉ l.map Prod.fst) :
    assocFind l k = none := by
  induction l with
  | nil => rfl
  | cons p rest ih =>
      simp only [List.map_cons, List.mem_cons] at h
      push_neg at h
      rw [assocFind_cons, if_neg (fun he : p.1 = k => h.1 he.symm)]
      exact ih h.2

theorem assocFind_erase_self {α β : Type} [DecidableEq α]
    {l : List (α × β)} (hnodup : (l.map Prod.fst).Nodup) (k : α) :
    assocFind (assocErase l k) k = none := by
  induction l with
  | nil => rfl
  | cons p rest ih =>
      simp only [List.map_cons, List.nodup_cons] at hnodup
      by_cases hp : p.1 = k
      · rw [assocErase, if_pos hp]
        exact assocFind_eq_none_of_not_mem (by rw [← hp]; exact hnodup.1)
      · rw [assocErase, if_neg hp]
        simp [assocFind_cons, hp]
        exact ih hnodup.2

theorem assocFind_filter_none {α β : Type} [DecidableEq α]
    {l : List (α × β)} {a : α} {f : α × β → Bool}
    (h : ∀ p, p.1 = a → f p = false) :
    assocFind (l.filter f) a = none := by
  induction l with
  | nil => rfl
  | cons p rest ih =>
      by_cases hf : f p
      · rw [List.filter_cons_of_pos hf]
        have hpa : p.1 ≠ a := fun he => by rw [h p he] at hf; exact Bool.noConfusion hf
        simp [assocFind_cons, hpa]
        exact ih
      · rw [List.filter_cons_of_neg hf]
        exact ih

theorem destroy_found_blocked {eng : WorldEngine} {w : String} {world : World}
    (hfind : assocFind eng.worlds w = some world)
    (hlen : 0 < world.agents.length) :
    eng.destroy_world w false = (false, eng) := by
  simp only [WorldEngine.destroy_world]
  rw [hfind]
  simp [hlen]

theorem destroy_found_success {eng : WorldEngine} {w : String} {world : World}
    {force : Bool} (hfind : assocFind eng.worlds w = some world)
    (h : force = true ∨ world.agents.length = 0) :
    eng.destroy_world w force = (true, { eng with
      worlds := assocErase eng.worlds w,
      agent_to_world := eng.agent_to_world.filter
        (fun p => !world.agents.contains p.1) }) := by
  simp only [WorldEngine.destroy_world]
  rw [hfind]
  rcases h with h | h
  · subst h
    simp
  · simp [h]

/-- **C7.**  For every world `w` present in the engine:
`destroy_world(w, force=false)` refuses — returning `false` with the
engine unchanged — iff the world's member count is positive; and
`destroy_world(w, force=true)` always succeeds, removing the world and
erasing every member's entry from the agent-to-world map. -/
theorem c7_destroy_world (eng : WorldEngine) (w : String) (world : World)
    (hnodup : (eng.worlds.map Prod.fst).Nodup)
    (hfind : assocFind eng.worlds w = some world) :
    ((eng.destroy_world w false).1 = false ↔ 0 < world.agents.length) ∧
    ((eng.destroy_world w false).1 = false → (eng.destroy_world w false).2 = eng) ∧
    (eng.destroy_world w true).1 = true ∧
    assocFind (eng.destroy_world w true).2.worlds w = none ∧
    (∀ a ∈ world.agents,
      assocFind (eng.destroy_world w true).2.agent_to_world a = none) := by
  have hsucc := destroy_found_success hfind (Or.inl rfl : (true = true) ∨ _)
  refine ⟨?_, ?_, by rw [hsucc], ?_, ?_⟩
  · constructor
    · intro h
      by_contra hlen
      rw [destroy_found_success hfind (Or.inr (by omega))] at h
      simp at h
    · intro hlen
      rw [destroy_found_blocked hfind hlen]
  · intro h
    by_cases hlen : 0 < world.agents.length
    · rw [destroy_found_blocked hfind hlen]
    · rw [destroy_found_success hfind (Or.inr (by omega))] at h
      simp at h
  · rw [hsucc]
    exact assocFind_erase_self hnodup w
  · intro a ha
    rw [hsucc]
    exact assocFind_filter_none (fun p hpa => by simp [hpa, ha])

/-- **C7, witness.**  A world with members 3 and 4: the non-forced
destroy refuses and changes nothing; the forced destroy succeeds,
removes the world and evicts both members from the agent-to-world
map.  (`e₀` abbreviates the engine, spelled out positionally:
worlds, agent-to-world map, counter.) -/
theorem c7_witness :
    ((WorldEngine.mk [("sim-0001", World.mk "sim-0001" "sim-0001" "" Json.null (VirtualFilesystem.mk [] [] [] []) [3, 4])] [(3, "sim-0001"), (4, "sim-0001")] 2).destroy_world "sim-0001" false).1 = false ∧
    ((WorldEngine.mk [("sim-0001", World.mk "sim-0001" "sim-0001" "" Json.null (VirtualFilesystem.mk [] [] [] []) [3, 4])] [(3, "sim-0001"), (4, "sim-0001")] 2).destroy_world "sim-0001" false).2 = WorldEngine.mk [("sim-0001", World.mk "sim-0001" "sim-0001" "" Json.null (VirtualFilesystem.mk [] [] [] []) [3, 4])] [(3, "sim-0001"), (4, "sim-0001")] 2 ∧
    ((WorldEngine.mk [("sim-0001", World.mk "sim-0001" "sim-0001" "" Json.null (VirtualFilesystem.mk [] [] [] []) [3, 4])] [(3, "sim-0001"), (4, "sim-0001")] 2).destroy_world "sim-0001" true).1 = true ∧
    assocFind ((WorldEngine.mk [("sim-0001", World.mk "sim-0001" "sim-0001" "" Json.null (VirtualFilesystem.mk [] [] [] []) [3, 4])] [(3, "sim-0001"), (4, "sim-0001")] 2).destroy_world "sim-0001" true).2.worlds "sim-0001" = none ∧
    assocFind ((WorldEngine.mk [("sim-0001", World.mk "sim-0001" "sim-0001" "" Json.null (VirtualFilesystem.mk [] [] [] []) [3, 4])] [(3, "sim-0001"), (4, "sim-0001")] 2).destroy_world "sim-0001" true).2.agent_to_world 3 = none := by
  have h := c7_destroy_world
    (WorldEngine.mk [("sim-0001", World.mk "sim-0001" "sim-0001" "" Json.null (VirtualFilesystem.mk [] [] [] []) [3, 4])] [(3, "sim-0001"), (4, "sim-0001")] 2)
    "sim-0001" (World.mk "sim-0001" "sim-0001" "" Json.null (VirtualFilesystem.mk [] [] [] []) [3, 4])
    (by decide) rfl
  exact ⟨h.1.mpr (by decide), h.2.1 (h.1.mpr (by decide)), h.2.2.1, h.2.2.2.1,
    h.2.2.2.2 3 (by decide)⟩

theorem strElems_map_str (l : List String) :
    Json.strElems (Json.arr (l.map Json.str)) = l := by
  induction l with
  | nil => rfl
  | cons s rest ih =>
      simp only [Json.strElems] at ih ⊢
      simp [ih]

theorem map_file_roundtrip (l : List (String × VirtualFile)) :
    (l.map (fun pf => (pf.1,
        Json.obj [("content", Json.str pf.2.content),
                  ("mode", Json.str pf.2.mode)]))).map
      (fun pf => (pf.1,
        VirtualFile.mk (VirtualFilesystem.valueStrD pf.2 "content" "")
          (VirtualFilesystem.valueStrD pf.2 "mode" "rw"))) = l := by
  induction l with
  | nil => rfl
  | cons p rest ih =>
      simp only [List.map_cons, ih]
      rfl

/-- The virtual filesystem survives `to_json`/`from_json` exactly (the
only serialized data dropped on restore are the two timestamps, which
the model omits). -/
theorem vfs_from_to_json (fs : VirtualFilesystem) :
    VirtualFilesystem.from_json fs.to_json = fs := by
  cases fs with
  | mk files ro wr ic =>
      simp only [VirtualFilesystem.to_json, VirtualFilesystem.from_json, Json.get,
        assocFind_cons]
      norm_num
      exact ⟨by rw [← List.map_map]; exact map_file_roundtrip files,
        strElems_map_str ro, strElems_map_str wr, strElems_map_str ic⟩

theorem snap_get_vfs {eng : WorldEngine} {w : String} {t : Int} {snap : Json}
    {world : World} (hw : assocFind eng.worlds w = some world)
    (hs : eng.snapshot_world w t = some snap) :
    snap.get "vfs" = some world.vfs.to_json := by
  simp only [WorldEngine.snapshot_world] at hs
  rw [hw] at hs
  simp only [World.to_json, Json.setField] at hs
  have heq := (Option.some.injEq _ _).mp hs
  rw [← heq]
  show Json.get (Json.obj (assocPut _ "snapshot_time" (Json.num t))) "vfs" = _
  simp only [Json.get]
  rw [assocFind_put_other _ _ _ _ (by decide)]
  rfl

theorem restore_world_shape {eng₂ : WorldEngine} {snap : Json} {nid rid : String}
    {eng' : WorldEngine} (hr : eng₂.restore_world snap nid = some (rid, eng')) :
    assocFind eng'.worlds rid = some ((World.fresh rid).from_json snap) := by
  simp only [WorldEngine.restore_world] at hr
  by_cases hnid : nid = ""
  · simp only [if_pos hnid] at hr
    cases hfind1 : assocFind eng₂.worlds (generate_world_id
        (VirtualFilesystem.valueStrD snap "name" "restored") eng₂.next_world_num) with
    | some ww =>
        rw [hfind1] at hr
        simp at hr
    | none =>
        rw [hfind1] at hr
        simp only [Option.some.injEq, Prod.mk.injEq] at hr
        obtain ⟨hid, heng⟩ := hr
        rw [← heng, ← hid]
        exact assocFind_put_self _ _ _
  · simp only [if_neg hnid] at hr
    cases hfind1 : assocFind eng₂.worlds nid with
    | some ww =>
        rw [hfind1] at hr
        simp at hr
    | none =>
        rw [hfind1] at hr
        simp only [Option.some.injEq, Prod.mk.injEq] at hr
        obtain ⟨hid, heng⟩ := hr
        rw [← heng, ← hid]
        exact assocFind_put_self _ _ _

/-- **C8.**  Restoring a world from `snapshot_world` yields a world
whose virtual filesystem agrees with the original's on `read` for every
path, on `list` for every pattern, and on the three mode predicates
`is_writable`, `is_readable` and `should_intercept` — in fact the
modelled VFS (contents, modes and the three pattern lists) survives the
snapshot→restore round trip exactly. -/
theorem c8_snapshot_restore_roundtrip
    (eng eng₂ : WorldEngine) (w nid rid : String) (t : Int) (snap : Json)
    (w_orig w_rest : World) (eng' : WorldEngine)
    (hw : assocFind eng.worlds w = some w_orig)
    (hs : eng.snapshot_world w t = some snap)
    (hr : eng₂.restore_world snap nid = some (rid, eng'))
    (hfind : eng'.get_world rid = some w_rest) :
    w_rest.vfs = w_orig.vfs ∧
    (∀ p, w_rest.vfs.read p = w_orig.vfs.read p) ∧
    (∀ pat, w_rest.vfs.list pat = w_orig.vfs.list pat) ∧
    (∀ p, w_rest.vfs.is_writable p = w_orig.vfs.is_writable p) ∧
    (∀ p, w_rest.vfs.is_readable p = w_orig.vfs.is_readable p) ∧
    (∀ p, w_rest.vfs.should_intercept p = w_orig.vfs.should_intercept p) := by
  have h1 := restore_world_shape hr
  have h2 : w_rest = (World.fresh rid).from_json snap := by
    rw [WorldEngine.get_world, h1] at hfind
    exact ((Option.some.injEq _ _).mp hfind).symm
  have h3 := snap_get_vfs hw hs
  have h5 : w_rest.vfs = w_orig.vfs := by
    rw [h2]
    simp only [World.from_json]
    rw [h3]
    exact vfs_from_to_json _
  exact ⟨h5, fun p => by rw [h5], fun pat => by rw [h5], fun p => by rw [h5],
    fun p => by rw [h5], fun p => by rw [h5]⟩

/-- **C8, witness.**  A world holding `/f` (mode `r`, content `hi`),
writable pattern `/data/*` and intercept pattern `/**` is snapshotted
and restored under id `copy`; the restored VFS returns the same content
for `/f`, keeps it read-only, and still intercepts unrelated paths. -/
theorem c8_witness :
    (WorldEngine.mk [("alpha-0001", World.mk "alpha-0001" "alpha" "" Json.null (VirtualFilesystem.mk [("/f", VirtualFile.mk "hi" "r")] [] ["/data/*"] ["/**"]) [])] [] 2).snapshot_world "alpha-0001" 5 =
      some (Json.obj [("id", Json.str "alpha-0001"), ("name", Json.str "alpha"), ("description", Json.str ""), ("config", Json.null), ("vfs", Json.obj [("files", Json.obj [("/f", Json.obj [("content", Json.str "hi"), ("mode", Json.str "r")])]), ("readonly_patterns", Json.arr []), ("writable_patterns", Json.arr [Json.str "/data/*"]), ("intercept_patterns", Json.arr [Json.str "/**"])]), ("agents", Json.arr []), ("snapshot_time", Json.num 5)]) ∧
    (WorldEngine.mk [("alpha-0001", World.mk "alpha-0001" "alpha" "" Json.null (VirtualFilesystem.mk [("/f", VirtualFile.mk "hi" "r")] [] ["/data/*"] ["/**"]) [])] [] 2).restore_world (Json.obj [("id", Json.str "alpha-0001"), ("name", Json.str "alpha"), ("description", Json.str ""), ("config", Json.null), ("vfs", Json.obj [("files", Json.obj [("/f", Json.obj [("content", Json.str "hi"), ("mode", Json.str "r")])]), ("readonly_patterns", Json.arr []), ("writable_patterns", Json.arr [Json.str "/data/*"]), ("intercept_patterns", Json.arr [Json.str "/**"])]), ("agents", Json.arr []), ("snapshot_time", Json.num 5)]) "copy" =
      some ("copy", WorldEngine.mk [("alpha-0001", World.mk "alpha-0001" "alpha" "" Json.null (VirtualFilesystem.mk [("/f", VirtualFile.mk "hi" "r")] [] ["/data/*"] ["/**"]) []), ("copy", World.mk "copy" "alpha" "" Json.null (VirtualFilesystem.mk [("/f", VirtualFile.mk "hi" "r")] [] ["/data/*"] ["/**"]) [])] [] 2) ∧
    (World.mk "copy" "alpha" "" Json.null (VirtualFilesystem.mk [("/f", VirtualFile.mk "hi" "r")] [] ["/data/*"] ["/**"]) []).vfs.read "/f" = some "hi" ∧
    (World.mk "copy" "alpha" "" Json.null (VirtualFilesystem.mk [("/f", VirtualFile.mk "hi" "r")] [] ["/data/*"] ["/**"]) []).vfs.is_writable "/f" = false ∧
    (World.mk "copy" "alpha" "" Json.null (VirtualFilesystem.mk [("/f", VirtualFile.mk "hi" "r")] [] ["/data/*"] ["/**"]) []).vfs.should_intercept "/q" = true := by
  have hs : (WorldEngine.mk [("alpha-0001", World.mk "alpha-0001" "alpha" "" Json.null (VirtualFilesystem.mk [("/f", VirtualFile.mk "hi" "r")] [] ["/data/*"] ["/**"]) [])] [] 2).snapshot_world "alpha-0001" 5 = some (Json.obj [("id", Json.str "alpha-0001"), ("name", Json.str "alpha"), ("description", Json.str ""), ("config", Json.null), ("vfs", Json.obj [("files", Json.obj [("/f", Json.obj [("content", Json.str "hi"), ("mode", Json.str "r")])]), ("readonly_patterns", Json.arr []), ("writable_patterns", Json.arr [Json.str "/data/*"]), ("intercept_patterns", Json.arr [Json.str "/**"])]), ("agents", Json.arr []), ("snapshot_time", Json.num 5)]) := rfl
  have hr : (WorldEngine.mk [("alpha-0001", World.mk "alpha-0001" "alpha" "" Json.null (VirtualFilesystem.mk [("/f", VirtualFile.mk "hi" "r")] [] ["/data/*"] ["/**"]) [])] [] 2).restore_world (Json.obj [("id", Json.str "alpha-0001"), ("name", Json.str "alpha"), ("description", Json.str ""), ("config", Json.null), ("vfs", Json.obj [("files", Json.obj [("/f", Json.obj [("content", Json.str "hi"), ("mode", Json.str "r")])]), ("readonly_patterns", Json.arr []), ("writable_patterns", Json.arr [Json.str "/data/*"]), ("intercept_patterns", Json.arr [Json.str "/**"])]), ("agents", Json.arr []), ("snapshot_time", Json.num 5)]) "copy" = some ("copy", WorldEngine.mk [("alpha-0001", World.mk "alpha-0001" "alpha" "" Json.null (VirtualFilesystem.mk [("/f", VirtualFile.mk "hi" "r")] [] ["/data/*"] ["/**"]) []), ("copy", World.mk "copy" "alpha" "" Json.null (VirtualFilesystem.mk [("/f", VirtualFile.mk "hi" "r")] [] ["/data/*"] ["/**"]) [])] [] 2) := rfl
  have main := c8_snapshot_restore_roundtrip
    (WorldEngine.mk [("alpha-0001", World.mk "alpha-0001" "alpha" "" Json.null (VirtualFilesystem.mk [("/f", VirtualFile.mk "hi" "r")] [] ["/data/*"] ["/**"]) [])] [] 2)
    (WorldEngine.mk [("alpha-0001", World.mk "alpha-0001" "alpha" "" Json.null (VirtualFilesystem.mk [("/f", VirtualFile.mk "hi" "r")] [] ["/data/*"] ["/**"]) [])] [] 2)
    "alpha-0001" "copy" "copy" 5 _
    (World.mk "alpha-0001" "alpha" "" Json.null (VirtualFilesystem.mk [("/f", VirtualFile.mk "hi" "r")] [] ["/data/*"] ["/**"]) [])
    (World.mk "copy" "alpha" "" Json.null (VirtualFilesystem.mk [("/f", VirtualFile.mk "hi" "r")] [] ["/data/*"] ["/**"]) [])
    (WorldEngine.mk [("alpha-0001", World.mk "alpha-0001" "alpha" "" Json.null (VirtualFilesystem.mk [("/f", VirtualFile.mk "hi" "r")] [] ["/data/*"] ["/**"]) []), ("copy", World.mk "copy" "alpha" "" Json.null (VirtualFilesystem.mk [("/f", VirtualFile.mk "hi" "r")] [] ["/data/*"] ["/**"]) [])] [] 2)
    rfl hs hr rfl
  exact ⟨hs, hr, (main.2.1 "/f").trans rfl, (main.2.2.2.1 "/f").trans rfl,
    (main.2.2.2.2.2 "/q").trans rfl⟩

theorem handleFailure_schedule (cfg : RestartConfig) (ec : Int) (t t0 i : Nat)
    (hp : cfg.policy = RestartPolicy.ALWAYS)
    (hwt : t - t0 < cfg.restart_window_sec) (hik : i < cfg.max_restarts) :
    handleFailure cfg ec t ⟨i, t0, i, false⟩ =
      (some ⟨i + 1, t0, i + 1, false⟩, [RestartEvent.restarting],
       some (calculate_backoff_delay cfg i)) := by
  simp only [handleFailure, hp]
  rw [if_neg (by simp)]
  rw [if_neg (show ¬ t - t0 ≥ cfg.restart_window_sec by omega)]
  rw [if_neg (show ¬ i ≥ cfg.max_restarts by omega)]

theorem handleFailure_escalate (cfg : RestartConfig) (ec : Int) (t t0 : Nat)
    (hp : cfg.policy = RestartPolicy.ALWAYS)
    (hwt : t - t0 < cfg.restart_window_sec) :
    handleFailure cfg ec t
      ⟨cfg.max_restarts, t0, cfg.max_restarts, false⟩ =
      (some ⟨cfg.max_restarts, t0, cfg.max_restarts, true⟩,
       [RestartEvent.escalated], none) := by
  simp only [handleFailure, hp]
  rw [if_neg (by simp)]
  rw [if_neg (show ¬ t - t0 ≥ cfg.restart_window_sec by omega)]
  rw [if_pos (show cfg.max_restarts ≥ cfg.max_restarts by omega)]
  rw [if_pos (by simp)]

theorem handleFailure_after_escalation (cfg : RestartConfig) (ec : Int) (t t0 : Nat)
    (hp : cfg.policy = RestartPolicy.ALWAYS)
    (hwt : t - t0 < cfg.restart_window_sec) :
    handleFailure cfg ec t
      ⟨cfg.max_restarts, t0, cfg.max_restarts, true⟩ =
      (some ⟨cfg.max_restarts, t0, cfg.max_restarts, true⟩, [], none) := by
  simp only [handleFailure, hp]
  rw [if_neg (by simp)]
  rw [if_neg (show ¬ t - t0 ≥ cfg.restart_window_sec by omega)]
  rw [if_pos (show cfg.max_restarts ≥ cfg.max_restarts by omega)]
  rw [if_neg (by simp)]

theorem runFailures_under_cap (cfg : RestartConfig) (ec : Int) (t0 : Nat)
    (hp : cfg.policy = RestartPolicy.ALWAYS) :
    ∀ (ts : List Nat) (i : Nat),
      (∀ t ∈ ts, t0 ≤ t ∧ t - t0 < cfg.restart_window_sec) →
      i + ts.length ≤ cfg.max_restarts →
      ∃ ds : List Nat,
        runFailures cfg ec ts (some ⟨i, t0, i, false⟩) =
          (some ⟨i + ts.length, t0, i + ts.length, false⟩,
           List.replicate ts.length RestartEvent.restarting, ds) ∧
        ds.length = ts.length := by
  intro ts
  induction ts with
  | nil =>
      intro i _ _
      exact ⟨[], by simp [runFailures], rfl⟩
  | cons t rest ih =>
      intro i hw hcap
      have hwt := hw t (List.mem_cons_self _ _)
      obtain ⟨ds', hrun', hlen'⟩ := ih (i + 1)
        (fun u hu => hw u (List.mem_cons_of_mem _ hu)) (by simp at hcap ⊢; omega)
      refine ⟨calculate_backoff_delay cfg i :: ds', ?_, by simp [hlen']⟩
      simp only [runFailures]
      rw [handleFailure_schedule cfg ec t t0 i hp hwt.2 (by simp at hcap; omega)]
      simp only [hrun']
      simp [List.replicate_succ]
      omega

theorem runFailures_after_escalation (cfg : RestartConfig) (ec : Int) (t0 : Nat)
    (hp : cfg.policy = RestartPolicy.ALWAYS) :
    ∀ (ts : List Nat),
      (∀ t ∈ ts, t0 ≤ t ∧ t - t0 < cfg.restart_window_sec) →
      runFailures cfg ec ts
        (some ⟨cfg.max_restarts, t0, cfg.max_restarts, true⟩) =
        (some ⟨cfg.max_restarts, t0, cfg.max_restarts, true⟩, [], []) := by
  intro ts
  induction ts with
  | nil => intro _; simp [runFailures]
  | cons t rest ih =>
      intro hw
      simp only [runFailures]
      rw [handleFailure_after_escalation cfg ec t t0 hp
        (hw t (List.mem_cons_self _ _)).2]
      simp only [ih (fun u hu => hw u (List.mem_cons_of_mem _ hu))]
      simp

theorem runFailures_append (cfg : RestartConfig) (ec : Int) :
    ∀ (l₁ l₂ : List Nat) (st : Option RestartState),
    runFailures cfg ec (l₁ ++ l₂) st =
      ((runFailures cfg ec l₂ (runFailures cfg ec l₁ st).1).1,
       (runFailures cfg ec l₁ st).2.1 ++
         (runFailures cfg ec l₂ (runFailures cfg ec l₁ st).1).2.1,
       (runFailures cfg ec l₁ st).2.2 ++
         (runFailures cfg ec l₂ (runFailures cfg ec l₁ st).1).2.2) := by
  intro l₁
  induction l₁ with
  | nil => intro l₂ st; simp [runFailures]
  | cons t rest ih =>
      intro l₂ st
      cases st with
      | none =>
          simp only [List.cons_append, runFailures]
          have ih' := ih l₂ none
          rcases h2 : runFailures cfg ec rest none with ⟨a2, b2, c2⟩
          rw [h2] at ih'
          rcases h1 : runFailures cfg ec (rest ++ l₂) none with ⟨a, b, c⟩
          rw [h1] at ih'
          simp only [h1, h2]
          simp only [Prod.mk.injEq] at ih'
          obtain ⟨ha, hb, hc⟩ := ih'
          rcases h3 : runFailures cfg ec l₂ a2 with ⟨a3, b3, c3⟩
          rw [h3] at ha hb hc
          simp only [h3]
          subst ha hb hc
          rfl
      | some s =>
          simp only [List.cons_append, runFailures]
          rcases hh : handleFailure cfg ec t s with ⟨st1, e1, d1⟩
          simp only [hh]
          have ih' := ih l₂ st1
          rcases h2 : runFailures cfg ec rest st1 with ⟨a2, b2, c2⟩
          rw [h2] at ih'
          rcases h1 : runFailures cfg ec (rest ++ l₂) st1 with ⟨a, b, c⟩
          rw [h1] at ih'
          simp only [h1, h2]
          simp only [Prod.mk.injEq] at ih'
          obtain ⟨ha, hb, hc⟩ := ih'
          rcases h3 : runFailures cfg ec l₂ a2 with ⟨a3, b3, c3⟩
          rw [h3] at ha hb hc
          simp only [h3]
          subst ha hb hc
          simp [List.append_assoc]

theorem count_escalated_replicate (n : Nat) :
    (List.replicate n RestartEvent.restarting).count RestartEvent.escalated = 0 := by
  induction n with
  | zero => rfl
  | succ n ih =>
      rw [List.replicate_succ, List.count_cons]
      simp [ih]

/-- **C6.**  Under `policy=ALWAYS` with `max_restarts = k` and window
`W`: a supervised agent that fails `k+1` (or more) times within the
window — every failure instant at or after the window start and less
than `W` seconds into it — produces exactly one `AGENT_ESCALATED`
event, schedules exactly `k` pending restarts (none at or after the
escalation), and ends with `escalated = true` and its counters at the
cap, so no further restart is scheduled until a failure outside the
window resets the counters. -/
theorem c6_escalation_once (cfg : RestartConfig) (ec : Int) (t0 : Nat)
    (ts : List Nat) (hp : cfg.policy = RestartPolicy.ALWAYS)
    (hw : ∀ t ∈ ts, t0 ≤ t ∧ t - t0 < cfg.restart_window_sec)
    (hl : cfg.max_restarts + 1 ≤ ts.length) :
    (runFailures cfg ec ts (some (initialRestartState t0))).2.1.count
        RestartEvent.escalated = 1 ∧
    (runFailures cfg ec ts (some (initialRestartState t0))).2.2.length =
      cfg.max_restarts ∧
    (runFailures cfg ec ts (some (initialRestartState t0))).1 =
      some ⟨cfg.max_restarts, t0, cfg.max_restarts, true⟩ := by
  have hsplit : ts = ts.take cfg.max_restarts ++ ts.drop cfg.max_restarts :=
    (List.take_append_drop cfg.max_restarts ts).symm
  have hdropnil : ts.drop cfg.max_restarts ≠ [] := by
    intro h
    have := congrArg List.length h
    rw [List.length_drop] at this
    simp at this
    omega
  obtain ⟨t, ts₂, hd⟩ := List.exists_cons_of_ne_nil hdropnil
  have hlt : (ts.take cfg.max_restarts).length = cfg.max_restarts := by
    rw [List.length_take]
    omega
  obtain ⟨ds, h1, hds⟩ := runFailures_under_cap cfg ec t0 hp
    (ts.take cfg.max_restarts) 0
    (fun u hu => hw u (List.take_subset _ _ hu)) (by omega)
  rw [hlt, Nat.zero_add] at h1
  have hmem_t : t ∈ ts := List.drop_subset _ _ (hd ▸ List.mem_cons_self t ts₂)
  have hmem_ts₂ : ∀ u ∈ ts₂, t0 ≤ u ∧ u - t0 < cfg.restart_window_sec := by
    intro u hu
    exact hw u (List.drop_subset _ _ (hd ▸ List.mem_cons_of_mem t hu))
  have h2 : runFailures cfg ec (t :: ts₂)
      (some ⟨cfg.max_restarts, t0, cfg.max_restarts, false⟩) =
      (some ⟨cfg.max_restarts, t0, cfg.max_restarts, true⟩,
       [RestartEvent.escalated], []) := by
    simp only [runFailures]
    rw [handleFailure_escalate cfg ec t t0 hp (hw t hmem_t).2]
    simp only [runFailures_after_escalation cfg ec t0 hp ts₂ hmem_ts₂]
    rfl
  have hinit : initialRestartState t0 =
      (⟨0, t0, 0, false⟩ : RestartState) := rfl
  rw [hinit, hsplit, hd, runFailures_append]
  simp only [h1, h2]
  refine ⟨?_, ?_, trivial⟩
  · rw [List.count_append, count_escalated_replicate]
    rfl
  · simp [hds, hlt]

/-- **C6, witness.**  `max_restarts = 2`, window 300 s, policy `ALWAYS`:
three failures at 10 s, 20 s and 30 s yield exactly one
`AGENT_ESCALATED`, exactly two scheduled restarts, and a final state
escalated at the cap. -/
theorem c6_witness :
    (runFailures { policy := .ALWAYS, max_restarts := 2, restart_window_sec := 300, backoff_initial_ms := 100, backoff_max_ms := 1000, backoff_multiplier := 2 } 0 [10, 20, 30] (some (initialRestartState 10))).2.1.count RestartEvent.escalated = 1 ∧
    (runFailures { policy := .ALWAYS, max_restarts := 2, restart_window_sec := 300, backoff_initial_ms := 100, backoff_max_ms := 1000, backoff_multiplier := 2 } 0 [10, 20, 30] (some (initialRestartState 10))).2.2.length = 2 ∧
    (runFailures { policy := .ALWAYS, max_restarts := 2, restart_window_sec := 300, backoff_initial_ms := 100, backoff_max_ms := 1000, backoff_multiplier := 2 } 0 [10, 20, 30] (some (initialRestartState 10))).1 = some ⟨2, 10, 2, true⟩ :=
  c6_escalation_once { policy := .ALWAYS, max_restarts := 2, restart_window_sec := 300, backoff_initial_ms := 100, backoff_max_ms := 1000, backoff_multiplier := 2 } 0 10 [10, 20, 30] rfl (by decide) (by decide)

/-! ## Lemmas toward the world-membership invariant (C10) -/

theorem mem_keys_assocPut {α β : Type} [DecidableEq α]
    {l : List (α × β)} {k k' : α} {v : β}
    (h : k' ∈ (assocPut l k v).map Prod.fst) :
    k' = k ∨ k' ∈ l.map Prod.fst := by
  induction l with
  | nil =>
      simp only [assocPut, List.map_cons, List.map_nil, List.mem_singleton] at h
      exact Or.inl h
  | cons p rest ih =>
      by_cases hp : p.1 = k
      · simp only [assocPut, if_pos hp, List.map_cons, List.mem_cons] at h
        rcases h with h | h
        · exact Or.inl h
        · exact Or.inr (List.mem_cons_of_mem _ h)
      · simp only [assocPut, if_neg hp, List.map_cons, List.mem_cons] at h
        rcases h with h | h
        · exact Or.inr (by simp [h])
        · rcases ih h with h' | h'
          · exact Or.inl h'
          · exact Or.inr (List.mem_cons_of_mem _ h')

theorem assocPut_keys_nodup {α β : Type} [DecidableEq α]
    {l : List (α × β)} (hl : (l.map Prod.fst).Nodup) (k : α) (v : β) :
    ((assocPut l k v).map Prod.fst).Nodup := by
  induction l with
  | nil => simp [assocPut]
  | cons p rest ih =>
      simp only [List.map_cons, List.nodup_cons] at hl
      by_cases hp : p.1 = k
      · simp only [assocPut, if_pos hp, List.map_cons, List.nodup_cons]
        exact ⟨by rw [← hp]; exact hl.1, hl.2⟩
      · simp only [assocPut, if_neg hp, List.map_cons, List.nodup_cons]
        refine ⟨?_, ih hl.2⟩
        intro hmem
        rcases mem_keys_assocPut hmem with h | h
        · exact hp h
        · exact hl.1 h

theorem assocErase_keys_sublist {α β : Type} [DecidableEq α]
    (l : List (α × β)) (k : α) :
    ((assocErase l k).map Prod.fst).Sublist (l.map Prod.fst) := by
  induction l with
  | nil => simp [assocErase]
  | cons p rest ih =>
      by_cases hp : p.1 = k
      · simp only [assocErase, if_pos hp, List.map_cons]
        exact List.Sublist.cons _ (List.Sublist.refl _)
      · simp only [assocErase, if_neg hp, List.map_cons]
        exact ih.cons₂ _

theorem assocErase_keys_nodup {α β : Type} [DecidableEq α]
    {l : List (α × β)} (hl : (l.map Prod.fst).Nodup) (k : α) :
    ((assocErase l k).map Prod.fst).Nodup :=
  List.Nodup.sublist (assocErase_keys_sublist l k) hl

theorem filter_keys_nodup {α β : Type} [DecidableEq α]
    {l : List (α × β)} (hl : (l.map Prod.fst).Nodup) (f : α × β → Bool) :
    ((l.filter f).map Prod.fst).Nodup :=
  List.Nodup.sublist ((List.filter_sublist l).map Prod.fst) hl

theorem assocFind_eq_some_mem {α β : Type} [DecidableEq α]
    {l : List (α × β)} {k : α} {v : β} (h : assocFind l k = some v) :
    (k, v) ∈ l := by
  obtain ⟨l₁, l₂, rfl, -⟩ := assocFind_eq_some_split h
  simp

theorem assocFind_filter_eq_some {α β : Type} [DecidableEq α]
    {l : List (α × β)} {k : α} {v : β} {f : α × β → Bool}
    (h : assocFind l k = some v) (hf : f (k, v) = true) :
    assocFind (l.filter f) k = some v := by
  induction l with
  | nil => simp [assocFind] at h
  | cons p rest ih =>
      obtain ⟨a, b⟩ := p
      by_cases hp : a = k
      · subst hp
        simp only [assocFind_cons, eq_self_iff_true, if_true, Option.some.injEq] at h
        subst h
        simp [List.filter_cons, hf, assocFind_cons]
      · simp only [assocFind_cons, hp, if_false, if_neg hp] at h
        by_cases hfp : f (a, b) = true
        · simp [List.filter_cons, hfp, assocFind_cons, hp, ih h]
        · simp only [Bool.not_eq_true] at hfp
          simp [List.filter_cons, hfp, ih h]

theorem assocFind_filter_mem {α β : Type} [DecidableEq α]
    {l : List (α × β)} {k : α} {v : β} {f : α × β → Bool}
    (h : assocFind (l.filter f) k = some v) :
    (k, v) ∈ l ∧ f (k, v) = true := by
  have hm := assocFind_eq_some_mem h
  rw [List.mem_filter] at hm
  exact hm

theorem pad4Chars_no_dash {n : Nat} : '-' ∉ pad4Chars n := by
  unfold pad4Chars
  intro h
  rcases List.mem_append.mp h with h | h
  · exact absurd (List.eq_of_mem_replicate h) (by decide)
  · exact natChars_no_dash h

theorem zeros_append_inj {a b : Char} {s t : List Char}
    (ha : a ≠ '0') (hb : b ≠ '0') :
    ∀ j k : Nat,
      List.replicate j '0' ++ a :: s = List.replicate k '0' ++ b :: t →
      a :: s = b :: t := by
  intro j
  induction j with
  | zero =>
      intro k h
      cases k with
      | zero => simpa using h
      | succ k =>
          rw [List.replicate_succ] at h
          simp only [List.replicate_zero, List.nil_append, List.cons_append,
            List.cons.injEq] at h
          exact absurd h.1 ha
  | succ j ih =>
      intro k h
      cases k with
      | zero =>
          rw [List.replicate_succ] at h
          simp only [List.replicate_zero, List.cons_append, List.nil_append,
            List.cons.injEq] at h
          exact absurd h.1.symm hb
      | succ k =>
          rw [List.replicate_succ, List.replicate_succ] at h
          simp only [List.cons_append, List.cons.injEq] at h
          exact ih k h.2

theorem pad4Chars_inj {m n : Nat} (hm : 1 ≤ m) (hn : 1 ≤ n)
    (h : pad4Chars m = pad4Chars n) : m = n := by
  obtain ⟨c, tc, hc, hc0⟩ := natChars_head_ne_zero hm
  obtain ⟨d, td, hd, hd0⟩ := natChars_head_ne_zero hn
  have hmn : natChars m = natChars n := by
    unfold pad4Chars at h
    rw [hc, hd] at h
    rw [hc, hd]
    exact zeros_append_inj hc0 hd0 _ _ h
  exact natChars_inj m n hmn

theorem generate_world_id_data (name : String) (n : Nat) :
    (generate_world_id name n).data = sanitizeName name ++ '-' :: pad4Chars n := rfl

theorem generate_world_id_not_mem {eng : WorldEngine} (hinv : EngineInv eng)
    (name : String) :
    assocFind eng.worlds (generate_world_id name eng.next_world_num) = none := by
  cases hfind : assocFind eng.worlds (generate_world_id name eng.next_world_num) with
  | none => rfl
  | some w =>
      have hmem : generate_world_id name eng.next_world_num ∈ eng.worlds.map Prod.fst :=
        List.mem_map.mpr ⟨_, assocFind_eq_some_mem hfind, rfl⟩
      obtain ⟨p, n', hn1, hnlt, hdata⟩ := hinv.fresh_ids _ hmem
      rw [generate_world_id_data] at hdata
      have hpad : pad4Chars eng.next_world_num = pad4Chars n' :=
        append_sep_inj_last (sanitizeName name) p _ _
          pad4Chars_no_dash pad4Chars_no_dash hdata
      have := pad4Chars_inj hinv.next_pos hn1 hpad
      omega

theorem mem_add_agent {w : World} {a b : Nat} :
    b ∈ (w.add_agent a).agents ↔ b = a ∨ b ∈ w.agents := by
  simp only [World.add_agent]
  by_cases h : a ∈ w.agents
  · simp only [if_pos h]
    constructor
    · exact Or.inr
    · rintro (rfl | hb)
      · exact h
      · exact hb
  · simp only [if_neg h, List.mem_append, List.mem_singleton]
    tauto

theorem add_agent_nodup {w : World} {a : Nat} (h : w.agents.Nodup) :
    (w.add_agent a).agents.Nodup := by
  simp only [World.add_agent]
  by_cases hm : a ∈ w.agents
  · simpa [if_pos hm] using h
  · simp only [if_neg hm]
    simp [List.nodup_append, h, hm]

theorem remove_agent_agents (w : World) (a : Nat) :
    (w.remove_agent a).agents = w.agents.erase a := rfl

theorem configure_agents (w : World) (c : Json) :
    (w.configure c).agents = w.agents := rfl

theorem fresh_agents (id : String) : (World.fresh id).agents = [] := rfl

theorem assocFind_of_mem_nodup {α β : Type} [DecidableEq α]
    {l : List (α × β)} (hl : (l.map Prod.fst).Nodup) {k : α} {v : β}
    (hm : (k, v) ∈ l) : assocFind l k = some v := by
  induction l with
  | nil => cases hm
  | cons p rest ih =>
      simp only [List.map_cons, List.nodup_cons] at hl
      rcases List.mem_cons.mp hm with h | h
      · obtain rfl := h.symm
        simp [assocFind_cons]
      · have hk : k ∈ rest.map Prod.fst := List.mem_map.mpr ⟨(k, v), h, rfl⟩
        have hp : p.1 ≠ k := fun he => hl.1 (by rw [he]; exact hk)
        rw [assocFind_cons, if_neg hp]
        exact ih hl.2 h

/-- The freshly constructed engine satisfies the invariant. -/
theorem inv_init : EngineInv ({} : WorldEngine) := by
  refine ⟨List.nodup_nil, List.nodup_nil, ?_, ?_, ?_, ?_, le_refl 1⟩
  · intro wid w h
    exact Option.noConfusion h
  · intro a wid h
    exact Option.noConfusion h
  · intro wid w h
    intro a ha
    exact absurd h (by simp)
  · intro wid h
    exact absurd h (List.not_mem_nil wid)

/-- `create_world` preserves the invariant: the generated id is fresh
(its `-NNNN` suffix uses the as-yet-unused counter value) and the new
world starts with no members. -/
theorem inv_create {eng : WorldEngine} (hinv : EngineInv eng)
    (name : String) (config : Json) :
    EngineInv (eng.create_world name config).2 := by
  have hfresh := generate_world_id_not_mem hinv name
  simp only [WorldEngine.create_world]
  refine ⟨?_, ?_, ?_, ?_, ?_, ?_, ?_⟩
  · exact assocPut_keys_nodup hinv.worlds_nodup _ _
  · exact hinv.a2w_nodup
  · intro wid w hw
    by_cases hid : wid = generate_world_id name eng.next_world_num
    · subst hid
      rw [assocFind_put_self] at hw
      cases hw
      rw [configure_agents, fresh_agents]
      exact List.nodup_nil
    · rw [assocFind_put_other _ _ _ _ (Ne.symm hid)] at hw
      exact hinv.agents_nodup _ _ hw
  · intro a wid ha
    obtain ⟨w, hw, hmem⟩ := hinv.maps_to_member a wid ha
    by_cases hid : wid = generate_world_id name eng.next_world_num
    · subst hid
      rw [hfresh] at hw
      exact Option.noConfusion hw
    · exact ⟨w, by rw [assocFind_put_other _ _ _ _ (Ne.symm hid)]; exact hw, hmem⟩
  · intro wid w hw a hmem
    by_cases hid : wid = generate_world_id name eng.next_world_num
    · subst hid
      rw [assocFind_put_self] at hw
      cases hw
      rw [configure_agents, fresh_agents] at hmem
      exact absurd hmem (List.not_mem_nil a)
    · rw [assocFind_put_other _ _ _ _ (Ne.symm hid)] at hw
      exact hinv.member_maps_back wid w hw a hmem
  · intro wid hmemk
    rcases mem_keys_assocPut hmemk with hid | hold
    · subst hid
      exact ⟨sanitizeName name, eng.next_world_num, hinv.next_pos,
        by dsimp only; omega, generate_world_id_data name _⟩
    · obtain ⟨p, n, h1, h2, h3⟩ := hinv.fresh_ids wid hold
      exact ⟨p, n, h1, by dsimp only; omega, h3⟩
  · have := hinv.next_pos
    dsimp only
    omega

/-- `join_world` preserves the invariant: a successful join adds the
agent to exactly one world and records the unique back-pointer. -/
theorem inv_join {eng : WorldEngine} (hinv : EngineInv eng)
    (agent_id : Nat) (world_id : String) :
    EngineInv (eng.join_world agent_id world_id).2 := by
  unfold WorldEngine.join_world
  cases ha : assocFind eng.agent_to_world agent_id with
  | some w' => exact hinv
  | none =>
      cases hw : assocFind eng.worlds world_id with
      | none => exact hinv
      | some w =>
          refine ⟨?_, ?_, ?_, ?_, ?_, ?_, ?_⟩
          · exact assocPut_keys_nodup hinv.worlds_nodup _ _
          · exact assocPut_keys_nodup hinv.a2w_nodup _ _
          · intro wid w'' hw''
            by_cases hid : wid = world_id
            · subst hid
              rw [assocFind_put_self] at hw''
              cases hw''
              exact add_agent_nodup (hinv.agents_nodup _ _ hw)
            · rw [assocFind_put_other _ _ _ _ (Ne.symm hid)] at hw''
              exact hinv.agents_nodup _ _ hw''
          · intro b wid hb
            by_cases hba : b = agent_id
            · subst hba
              rw [assocFind_put_self] at hb
              cases hb
              refine ⟨w.add_agent b, ?_, ?_⟩
              · rw [assocFind_put_self]
              · exact mem_add_agent.mpr (Or.inl rfl)
            · rw [assocFind_put_other _ _ _ _ (Ne.symm hba)] at hb
              obtain ⟨w', hw', hm⟩ := hinv.maps_to_member b wid hb
              by_cases hid : wid = world_id
              · subst hid
                rw [hw] at hw'
                cases hw'
                refine ⟨w.add_agent agent_id, ?_, ?_⟩
                · rw [assocFind_put_self]
                · exact mem_add_agent.mpr (Or.inr hm)
              · refine ⟨w', ?_, hm⟩
                rw [assocFind_put_other _ _ _ _ (Ne.symm hid)]
                exact hw'
          · intro wid w'' hw'' b hbm
            by_cases hid : wid = world_id
            · subst hid
              rw [assocFind_put_self] at hw''
              cases hw''
              rcases mem_add_agent.mp hbm with rfl | hbm'
              · rw [assocFind_put_self]
              · have hfb := hinv.member_maps_back _ _ hw b hbm'
                have hba : b ≠ agent_id := by
                  intro he
                  rw [he, ha] at hfb
                  exact Option.noConfusion hfb
                rw [assocFind_put_other _ _ _ _ (Ne.symm hba)]
                exact hfb
            · rw [assocFind_put_other _ _ _ _ (Ne.symm hid)] at hw''
              have hfb := hinv.member_maps_back _ _ hw'' b hbm
              have hba : b ≠ agent_id := by
                intro he
                rw [he, ha] at hfb
                exact Option.noConfusion hfb
              rw [assocFind_put_other _ _ _ _ (Ne.symm hba)]
              exact hfb
          · intro wid hmemk
            rcases mem_keys_assocPut hmemk with hid | hold
            · subst hid
              have hm : wid ∈ eng.worlds.map Prod.fst :=
                List.mem_map.mpr ⟨_, assocFind_eq_some_mem hw, rfl⟩
              obtain ⟨p, n, h1, h2, h3⟩ := hinv.fresh_ids _ hm
              exact ⟨p, n, h1, by dsimp only; omega, h3⟩
            · obtain ⟨p, n, h1, h2, h3⟩ := hinv.fresh_ids wid hold
              exact ⟨p, n, h1, by dsimp only; omega, h3⟩
          · have := hinv.next_pos
            dsimp only
            omega

/-- `leave_world` preserves the invariant: the back-pointer is erased
and the agent is removed from its (unique) world's member set. -/
theorem inv_leave {eng : WorldEngine} (hinv : EngineInv eng) (agent_id : Nat) :
    EngineInv (eng.leave_world agent_id).2 := by
  unfold WorldEngine.leave_world
  cases ha : assocFind eng.agent_to_world agent_id with
  | none => exact hinv
  | some world_id =>
      obtain ⟨w0, hw0, hmem0⟩ := hinv.maps_to_member _ _ ha
      simp only [hw0]
      refine ⟨?_, ?_, ?_, ?_, ?_, ?_, ?_⟩
      · exact assocPut_keys_nodup hinv.worlds_nodup _ _
      · exact assocErase_keys_nodup hinv.a2w_nodup _
      · intro wid w hw
        by_cases hid : wid = world_id
        · subst hid
          rw [assocFind_put_self] at hw
          cases hw
          rw [remove_agent_agents]
          exact (hinv.agents_nodup _ _ hw0).erase _
        · rw [assocFind_put_other _ _ _ _ (Ne.symm hid)] at hw
          exact hinv.agents_nodup _ _ hw
      · intro b wid hb
        by_cases hba : b = agent_id
        · subst hba
          rw [assocFind_erase_self hinv.a2w_nodup] at hb
          exact Option.noConfusion hb
        · rw [assocFind_erase_other _ _ _ (fun he => hba he.symm)] at hb
          obtain ⟨w', hw', hm⟩ := hinv.maps_to_member b wid hb
          by_cases hid : wid = world_id
          · subst hid
            rw [hw0] at hw'
            cases hw'
            refine ⟨w0.remove_agent agent_id, ?_, ?_⟩
            · rw [assocFind_put_self]
            · rw [remove_agent_agents]
              exact (List.mem_erase_of_ne hba).mpr hm
          · refine ⟨w', ?_, hm⟩
            rw [assocFind_put_other _ _ _ _ (Ne.symm hid)]
            exact hw'
      · intro wid w hw b hbm
        by_cases hid : wid = world_id
        · subst hid
          rw [assocFind_put_self] at hw
          cases hw
          rw [remove_agent_agents] at hbm
          have hbmem : b ∈ w0.agents := List.mem_of_mem_erase hbm
          have hba : b ≠ agent_id := by
            intro he
            subst he
            exact (hinv.agents_nodup _ _ hw0).not_mem_erase hbm
          rw [assocFind_erase_other _ _ _ (fun he => hba he.symm)]
          exact hinv.member_maps_back _ _ hw0 b hbmem
        · rw [assocFind_put_other _ _ _ _ (Ne.symm hid)] at hw
          have hfb := hinv.member_maps_back _ _ hw b hbm
          have hba : b ≠ agent_id := by
            intro he
            rw [he, ha] at hfb
            exact hid (Option.some.inj hfb).symm
          rw [assocFind_erase_other _ _ _ (fun he => hba he.symm)]
          exact hfb
      · intro wid hmemk
        rcases mem_keys_assocPut hmemk with hid | hold
        · subst hid
          have hm : wid ∈ eng.worlds.map Prod.fst :=
            List.mem_map.mpr ⟨_, assocFind_eq_some_mem hw0, rfl⟩
          obtain ⟨p, n, h1, h2, h3⟩ := hinv.fresh_ids _ hm
          exact ⟨p, n, h1, by dsimp only; omega, h3⟩
        · obtain ⟨p, n, h1, h2, h3⟩ := hinv.fresh_ids wid hold
          exact ⟨p, n, h1, by dsimp only; omega, h3⟩
      · have := hinv.next_pos
        dsimp only
        omega

/-- `destroy_world` preserves the invariant: the world is erased
together with every member's back-pointer, and only back-pointers into
the destroyed world are dropped. -/
theorem inv_destroy {eng : WorldEngine} (hinv : EngineInv eng)
    (world_id : String) (force : Bool) :
    EngineInv (eng.destroy_world world_id force).2 := by
  unfold WorldEngine.destroy_world
  cases hw : assocFind eng.worlds world_id with
  | none => exact hinv
  | some w =>
      dsimp only
      by_cases hblock : force = false ∧ w.agents.length > 0
      · rw [if_pos hblock]
        exact hinv
      · rw [if_neg hblock]
        refine ⟨?_, ?_, ?_, ?_, ?_, ?_, ?_⟩
        · exact assocErase_keys_nodup hinv.worlds_nodup _
        · exact filter_keys_nodup hinv.a2w_nodup _
        · intro wid w' hw'
          by_cases hid : wid = world_id
          · subst hid
            rw [assocFind_erase_self hinv.worlds_nodup] at hw'
            exact Option.noConfusion hw'
          · rw [assocFind_erase_other _ _ _ (fun he => hid he.symm)] at hw'
            exact hinv.agents_nodup _ _ hw'
        · intro b wid hb
          obtain ⟨hmem, hf⟩ := assocFind_filter_mem hb
          have hfind : assocFind eng.agent_to_world b = some wid :=
            assocFind_of_mem_nodup hinv.a2w_nodup hmem
          have hnb : b ∉ w.agents := by
            simpa using hf
          obtain ⟨w', hw', hm⟩ := hinv.maps_to_member b wid hfind
          have hid : wid ≠ world_id := by
            intro he
            subst he
            rw [hw] at hw'
            cases hw'
            exact hnb hm
          refine ⟨w', ?_, hm⟩
          rw [assocFind_erase_other _ _ _ (fun he => hid he.symm)]
          exact hw'
        · intro wid w' hw' b hbm
          by_cases hid : wid = world_id
          · subst hid
            rw [assocFind_erase_self hinv.worlds_nodup] at hw'
            exact Option.noConfusion hw'
          · rw [assocFind_erase_other _ _ _ (fun he => hid he.symm)] at hw'
            have hfb := hinv.member_maps_back _ _ hw' b hbm
            have hnb : b ∉ w.agents := by
              intro hmem
              have hagain := hinv.member_maps_back _ _ hw b hmem
              rw [hfb] at hagain
              exact hid (Option.some.inj hagain)
            exact assocFind_filter_eq_some hfb (by simpa using hnb)
        · intro wid hmemk
          have hold : wid ∈ eng.worlds.map Prod.fst :=
            (assocErase_keys_sublist _ _).subset hmemk
          obtain ⟨p, n, h1, h2, h3⟩ := hinv.fresh_ids wid hold
          exact ⟨p, n, h1, by dsimp only; omega, h3⟩
        · have := hinv.next_pos
          dsimp only
          omega

theorem inv_applyOp {eng : WorldEngine} (hinv : EngineInv eng) (op : WorldOp) :
    EngineInv (eng.applyOp op) := by
  cases op with
  | create name config => exact inv_create hinv name config
  | join agent_id world_id => exact inv_join hinv agent_id world_id
  | leave agent_id => exact inv_leave hinv agent_id
  | destroy world_id force => exact inv_destroy hinv world_id force

theorem inv_applyOps (ops : List WorldOp) :
    EngineInv (WorldEngine.applyOps ops) := by
  unfold WorldEngine.applyOps
  suffices h : ∀ (l : List WorldOp) (e : WorldEngine), EngineInv e →
      EngineInv (l.foldl WorldEngine.applyOp e) from h ops {} inv_init
  intro l
  induction l with
  | nil => intro e he; exact he
  | cons op rest ih =>
      intro e he
      exact ih _ (inv_applyOp he op)

/-- **C10.**  After any sequence of `create_world`, `join_world`,
`leave_world` and `destroy_world` operations from the initial engine:
the agent-to-world map is duplicate-free (at most one entry per agent);
a present entry names an existing world whose member set contains the
agent; every member of every world's member set maps back to that
world; hence no agent is a member of two distinct worlds; and
`join_world` fails without changing state when the agent is already in
a world or the target world does not exist. -/
theorem c10_world_membership_invariant (ops : List WorldOp) :
    ((WorldEngine.applyOps ops).agent_to_world.map Prod.fst).Nodup ∧
    (∀ a wid, assocFind (WorldEngine.applyOps ops).agent_to_world a = some wid →
      ∃ w, assocFind (WorldEngine.applyOps ops).worlds wid = some w ∧
        a ∈ w.agents) ∧
    (∀ wid w, assocFind (WorldEngine.applyOps ops).worlds wid = some w →
      ∀ a, a ∈ w.agents →
        assocFind (WorldEngine.applyOps ops).agent_to_world a = some wid) ∧
    (∀ wid₁ wid₂ w₁ w₂ a,
      assocFind (WorldEngine.applyOps ops).worlds wid₁ = some w₁ →
      assocFind (WorldEngine.applyOps ops).worlds wid₂ = some w₂ →
      a ∈ w₁.agents → a ∈ w₂.agents → wid₁ = wid₂) ∧
    (∀ a wid,
      (assocFind (WorldEngine.applyOps ops).agent_to_world a).isSome = true ∨
        assocFind (WorldEngine.applyOps ops).worlds wid = none →
      (WorldEngine.applyOps ops).join_world a wid =
        (false, WorldEngine.applyOps ops)) := by
  have hinv := inv_applyOps ops
  refine ⟨hinv.a2w_nodup, hinv.maps_to_member, hinv.member_maps_back, ?_, ?_⟩
  · intro wid₁ wid₂ w₁ w₂ a h1 h2 hm1 hm2
    have e1 := hinv.member_maps_back _ _ h1 a hm1
    have e2 := hinv.member_maps_back _ _ h2 a hm2
    rw [e1] at e2
    exact Option.some.inj e2
  · intro a wid h
    rcases h with h | h
    · obtain ⟨wid0, hwid0⟩ := Option.isSome_iff_exists.mp h
      unfold WorldEngine.join_world
      rw [hwid0]
    · unfold WorldEngine.join_world
      cases ha : assocFind (WorldEngine.applyOps ops).agent_to_world a with
      | some w' => rfl
      | none => rw [h]

/-- **C10, witness.**  Trace: create "My World" (id `my-world-0001`),
then agent 7 joins it; the invariant's second component yields the
world and the membership. -/
theorem c10_witness :
    ∃ w, assocFind (WorldEngine.applyOps
        [WorldOp.create "My World" Json.null,
         WorldOp.join 7 "my-world-0001"]).worlds "my-world-0001" = some w ∧
      7 ∈ w.agents :=
  (c10_world_membership_invariant
      [WorldOp.create "My World" Json.null, WorldOp.join 7 "my-world-0001"]).2.1
    7 "my-world-0001" (by rfl)

end Clove
